import Mathlib

/-!
Verification of the sqlite-clone reader (JavaScript source) against its
natural-language specification.

Conventions of the shallow embedding:

* A Node Buffer is a List Nat whose elements are byte values (0..255).
  Out-of-range indexing in JS yields undefined; in the places the source
  indexes out of range (plain subscripts and Buffer.subarray) the observable
  effect is the same as reading the byte 0 or clamping the slice, which is
  how it is modelled here (List.getD with default 0 and drop/take).
* JS 32-bit bitwise arithmetic (the shift/or in readVarInt) is modelled with
  explicit reduction modulo 2^32 followed by reinterpretation as a signed
  32-bit integer (jsToInt32).
* JS strings are modelled by their UTF-8 byte sequences (List Nat); for the
  ASCII data the reader handles, JS string comparison and ordering coincide
  with bytewise comparison of these sequences.
* Fallible code (functions containing a throw) returns Except String.
* JS strict equality and relational comparison on the dynamically typed
  values the reader produces are modelled by strictEq / jsGt and friends
  below; numeric coercions of non-numeric operands (ToNumber on strings,
  Buffer contents) are outside the modelled domain and return false, which
  every theorem below restricts to by hypotheses on the value shapes.
-/

/-- A dynamically typed JS value as produced by the record decoder: null,
a Number (always an integer here), a BigInt, a string (UTF-8 bytes), or a
Buffer (blob bytes). -/
inductive JSValue where
  | null : JSValue
  | num : Int → JSValue
  | bignum : Int → JSValue
  | str : List Nat → JSValue
  | blob : List Nat → JSValue
deriving DecidableEq, Repr

/-- A decoded row: the insertion-ordered JS Map from column name to value. -/
abbrev Row := List (String × JSValue)

/-- Map.get: the value bound to the first occurrence of the key, or
undefined (none). -/
def rowGet (row : Row) (key : String) : Option JSValue :=
  row.lookup key

/-- Map.set: update the binding in place if the key is present, else append. -/
def rowSet (row : Row) (key : String) (v : JSValue) : Row :=
  match row with
  | [] => [(key, v)]
  | (k, w) :: rest => if k == key then (k, v) :: rest else (k, w) :: rowSet rest key v

/-- JS strict equality on the modelled values. Mixed-type comparisons are
false (=== performs no coercion; a Number never strictly equals a BigInt),
and two Buffers compare by object identity, which is false for the distinct
subarray objects the reader produces. -/
def strictEq : JSValue → JSValue → Bool
  | .null, .null => true
  | .num a, .num b => a == b
  | .bignum a, .bignum b => a == b
  | .str a, .str b => a == b
  | _, _ => false

/-- Strict equality against a possibly-undefined Map lookup: undefined is
never strictly equal to a produced value. -/
def strictEqOpt (o : Option JSValue) (v : JSValue) : Bool :=
  match o with
  | some x => strictEq x v
  | none => false

/-- Lexicographic (bytewise) strict order, the order JS uses on strings. -/
def lexLt : List Nat → List Nat → Bool
  | [], [] => false
  | [], _ :: _ => true
  | _ :: _, [] => false
  | a :: as, b :: bs => if a < b then true else if b < a then false else lexLt as bs

/-- The JS comparison a GREATER-THAN b for the value shapes the reader
compares: strings lexicographically, numerics numerically (BigInt and
Number may be compared relationally in JS). Other shapes are outside the
modelled domain and yield false. -/
def jsGt : JSValue → JSValue → Bool
  | .str a, .str b => lexLt b a
  | .num a, .num b => b < a
  | .bignum a, .bignum b => b < a
  | .num a, .bignum b => b < a
  | .bignum a, .num b => b < a
  | _, _ => false

/-- The JS comparison a GREATER-OR-EQUAL b, same domain as jsGt. -/
def jsGe : JSValue → JSValue → Bool
  | .str a, .str b => !lexLt a b
  | .num a, .num b => b ≤ a
  | .bignum a, .bignum b => b ≤ a
  | .num a, .bignum b => b ≤ a
  | .bignum a, .num b => b ≤ a
  | _, _ => false

/-- jsGt lifted to a possibly-undefined left operand (undefined compares
false). -/
def jsGtOpt (o : Option JSValue) (v : JSValue) : Bool :=
  match o with
  | some x => jsGt x v
  | none => false

/-- jsGe lifted to a possibly-undefined left operand. -/
def jsGeOpt (o : Option JSValue) (v : JSValue) : Bool :=
  match o with
  | some x => jsGe x v
  | none => false

/-- The JS comparison a LESS-OR-EQUAL b with a possibly-undefined left
operand: a is at most b exactly when b is at least a on the modelled
shapes. -/
def jsLeOpt (o : Option JSValue) (v : JSValue) : Bool :=
  match o with
  | some x => jsGe v x
  | none => false

/-! ## Varint codec (varint.js) -/

/-- The result record returned by readVarInt. -/
structure VarIntResult where
  value : Int
  bytesRead : Nat
deriving DecidableEq, Repr

/-- Reinterpretation of an integer as a signed 32-bit value, the result type
of every JS bitwise operation. -/
def jsToInt32 (n : Int) : Int :=
  (n + 2 ^ 31) % 2 ^ 32 - 2 ^ 31

/-- One step of the readVarInt accumulator. In the source this is
value <<= 7 followed by value |= byte & 0x7f; because the shifted value has
zero low bits, the bitwise or is addition, so the int32 result is the
32-bit reduction of 128 * value + byte % 128. -/
def varIntStep (value : Int) (byte : Nat) : Int :=
  jsToInt32 (value * 128 + (byte % 128 : Nat))

/-- The loop body of readVarInt. The source iterates a counter i over
0..8; here the remaining iteration count fuel = 9 - i carries the bound
(so the loop guard i < 9 is the fuel pattern match) and i keeps indexing
the buffer. Reading past the end of the buffer yields undefined, which
both masks to 0 and fails the high-bit test, terminating the loop. -/
def readVarIntLoop (buffer : List Nat) (offset : Nat) :
    Nat → Nat → Int → Nat → VarIntResult
  | 0, _, value, bytesRead => ⟨value, bytesRead⟩
  | fuel + 1, i, value, bytesRead =>
    let byte := buffer.getD (offset + i) 0
    let value := varIntStep value byte
    let bytesRead := bytesRead + 1
    if byte.testBit 7 then
      readVarIntLoop buffer offset fuel (i + 1) value bytesRead
    else
      ⟨value, bytesRead⟩

/-- readVarInt (varint.js): decode the variable-length integer at offset,
returning the decoded value and the number of bytes read. -/
def readVarInt (buffer : List Nat) (offset : Nat) : VarIntResult :=
  readVarIntLoop buffer offset 9 0 0 0

/-! ## Serial-type decoder (readValue in database.js) -/

/-- Node Buffer.readUIntBE and friends: big-endian unsigned read of n bytes
starting at cursor. -/
def readUIntBE (buffer : List Nat) (cursor n : Nat) : Int :=
  ((buffer.drop cursor).take n).foldl (fun (a : Int) (b : Nat) => a * 256 + (b : Int)) 0

/-- Node Buffer.readInt8: one byte reinterpreted as signed 8-bit. -/
def readInt8 (buffer : List Nat) (cursor : Nat) : Int :=
  let b := buffer.getD cursor 0
  if b < 128 then (b : Int) else (b : Int) - 256

/-- readValue (database.js): decode one column value given its serial type.
Serial types 0, 8, 9, 12 and 13 yield null; types above 12 yield a blob or
UTF-8 text of (serialType - 12)/2 or (serialType - 13)/2 bytes; 1..5 are
byte-width integer reads (only type 1 signed); 6 and 7 are 8-byte unsigned
BigInt reads; anything else throws. -/
def readValue (buffer : List Nat) (cursor : Nat) (serialType : Int) :
    Except String (JSValue × Nat) :=
  if serialType = 0 ∨ serialType = 8 ∨ serialType = 9 ∨ serialType = 12 ∨ serialType = 13 then
    .ok (.null, cursor)
  else if serialType > 12 then
    let dataTypeSize := ((serialType - (if serialType % 2 = 0 then 12 else 13)) / 2).toNat
    let value := (buffer.drop cursor).take dataTypeSize
    let newCursor := cursor + dataTypeSize
    if serialType % 2 = 0 then .ok (.blob value, newCursor)
    else .ok (.str value, newCursor)
  else if serialType = 1 then .ok (.num (readInt8 buffer cursor), cursor + 1)
  else if serialType = 2 then .ok (.num (readUIntBE buffer cursor 2), cursor + 2)
  else if serialType = 3 then .ok (.num (readUIntBE buffer cursor 3), cursor + 3)
  else if serialType = 4 then .ok (.num (readUIntBE buffer cursor 4), cursor + 4)
  else if serialType = 5 then .ok (.num (readUIntBE buffer cursor 6), cursor + 6)
  else if serialType = 6 ∨ serialType = 7 then
    .ok (.bignum (readUIntBE buffer cursor 8), cursor + 8)
  else .error ("Unknown serial type: " ++ toString serialType)

/-! ## Record decoder (parseRow in database.js) -/

/-- The serial-type map built by the first loop of parseRow: one varint is
read per expected column (the value of the leading header-size varint is
not consulted), each bound to its column name. Returns the map and the
cursor after the last serial-type varint. -/
def parseRowSerialTypes (buffer : List Nat) (columns : List String) :
    List (String × Int) × Nat :=
  columns.foldl
    (fun acc col =>
      let r := readVarInt buffer acc.2
      (spmSet acc.1 col r.value, acc.2 + r.bytesRead))
    ([], (readVarInt buffer 0).bytesRead)
where
  /-- Map.set on the serial-type map. -/
  spmSet (m : List (String × Int)) (key : String) (v : Int) : List (String × Int) :=
    match m with
    | [] => [(key, v)]
    | (k, w) :: rest => if k == key then (k, v) :: rest else (k, w) :: spmSet rest key v

/-- The second loop of parseRow: read one value per column at the running
cursor, using the serial type recorded for that column. -/
def parseRowValues (buffer : List Nat) (serialTypes : List (String × Int)) :
    List String → Nat → Row → Except String Row
  | [], _, row => .ok row
  | col :: rest, cursor, row => do
    let (v, newCursor) ← readValue buffer cursor ((serialTypes.lookup col).getD 0)
    parseRowValues buffer serialTypes rest newCursor (rowSet row col v)

/-- parseRow (database.js): decode a record payload against the expected
column list. Note that the loop reads exactly one serial-type varint per
expected column, regardless of the header size declared in the payload. -/
def parseRow (buffer : List Nat) (columns : List String) : Except String Row :=
  let (serialTypes, cursor) := parseRowSerialTypes buffer columns
  parseRowValues buffer serialTypes columns cursor []

/-! ## Page reader (database.js) -/

/-- Node Buffer.readUInt16BE as used for cell pointers and header fields. -/
def readUInt16BE (buffer : List Nat) (cursor : Nat) : Nat :=
  buffer.getD cursor 0 * 256 + buffer.getD (cursor + 1) 0

/-- Node Buffer.readUInt32BE as used for child page numbers. -/
def readUInt32BE (buffer : List Nat) (cursor : Nat) : Nat :=
  ((buffer.drop cursor).take 4).foldl (fun a b => a * 256 + b) 0

/-- The parsed B-tree page header. -/
structure PageHeader where
  pageType : Int
  startOfFreeBlock : Nat
  numberOfCells : Nat
  startOfCellContentArea : Nat
  rightMostPointer : Option Nat
  pageHeaderSize : Nat
deriving DecidableEq, Repr

/-- getPageHeaderSize (database.js): 8 for leaf pages, 12 for interior
pages, a throw for any other page type. -/
def getPageHeaderSize (pageType : Int) : Except String Nat :=
  if pageType = 10 ∨ pageType = 13 then .ok 8
  else if pageType = 2 ∨ pageType = 5 then .ok 12
  else .error ("invalid page type: " ++ toString pageType)

/-- parsePageHeader (database.js). The page-number argument of the source
is used only for logging and is omitted. The right-most pointer is read
only on interior pages. -/
def parsePageHeader (buffer : List Nat) (offset : Nat) : Except String PageHeader := do
  let pageType := readInt8 buffer offset
  let startOfFreeBlock := readUInt16BE buffer (offset + 1)
  let numberOfCells := readUInt16BE buffer (offset + 3)
  let startOfCellContentArea := readUInt16BE buffer (offset + 5)
  let rightMostPointer :=
    if pageType = 2 ∨ pageType = 5 then some (readUInt32BE buffer (offset + 8)) else none
  let pageHeaderSize ← getPageHeaderSize pageType
  .ok ⟨pageType, startOfFreeBlock, numberOfCells, startOfCellContentArea,
       rightMostPointer, pageHeaderSize⟩

/-- fetchPage (database.js): the pageSize bytes starting at
(page - 1) * pageSize. A short read comes back zero-padded in the source
(Buffer.alloc); bytes past the end of the slice read as 0 here too via
List.getD. -/
def fetchPage (file : List Nat) (page pageSize : Nat) : List Nat :=
  (file.drop ((page - 1) * pageSize)).take pageSize

/-- The payload and row id extracted from one cell. -/
structure CellPayload where
  payload : List Nat
  rowId : Option Int
deriving DecidableEq, Repr

/-- readCellPayload (database.js): a payload-size varint, then, on table
pages only, a row-id varint, then the payload bytes. -/
def readCellPayload (pageType : Int) (buffer : List Nat) (cellPointer : Nat) : CellPayload :=
  let r := readVarInt buffer cellPointer
  let cursor := cellPointer + r.bytesRead
  if pageType = 13 ∨ pageType = 5 then
    let r2 := readVarInt buffer cursor
    let cursor := cursor + r2.bytesRead
    ⟨(buffer.drop cursor).take r.value.toNat, some r2.value⟩
  else
    ⟨(buffer.drop cursor).take r.value.toNat, none⟩

/-! ## Schema loader (readDatabaseSchemas in database.js) -/

/-- The fixed column list used to decode sqlite_schema records. -/
def SCHEMA_COLUMNS : List String := ["schemaType", "schemaName", "name", "rootPage", "schemaBody"]

/-- The column list used to decode index records. -/
def INDEX_COLUMNS : List String := ["key", "rowId"]

/-- The byte sequence of a string literal. Every literal the source
compares against is ASCII, where the UTF-8 bytes are the character
codes. -/
def strBytes (s : String) : List Nat :=
  s.data.map Char.toNat

/-- Rendering of a schema-type value inside the template literal of the
InvalidSchemaType error message. Only the null and text shapes are ever
interpolated by the source paths modelled here. -/
def jsDisplayOpt (o : Option JSValue) : String :=
  match o with
  | none => "undefined"
  | some .null => "null"
  | some (.num n) => toString n
  | some (.bignum n) => toString n
  | some (.str bs) => String.mk (bs.map Char.ofNat)
  | some (.blob bs) => String.mk (bs.map Char.ofNat)

/-- The cell loop of readDatabaseSchemas: walk the cell-pointer array with
the table-LEAF cell layout (readCellPayload with the header page type),
decode each record against SCHEMA_COLUMNS, and partition rows into tables
and indexes, throwing on any other schema type. -/
def readDatabaseSchemasLoop (buffer : List Nat) (pageType : Int) :
    Nat → Nat → List Row → List Row → Except String (List Row × List Row)
  | 0, _, tables, indexes => .ok (tables, indexes)
  | n + 1, cursor, tables, indexes => do
    let cellPointer := readUInt16BE buffer cursor
    let cell := readCellPayload pageType buffer cellPointer
    let row ← parseRow cell.payload SCHEMA_COLUMNS
    let schemaType := rowGet row "schemaType"
    if strictEqOpt schemaType (.str (strBytes "table")) then
      readDatabaseSchemasLoop buffer pageType n (cursor + 2) (tables ++ [row]) indexes
    else if strictEqOpt schemaType (.str (strBytes "index")) then
      readDatabaseSchemasLoop buffer pageType n (cursor + 2) tables (indexes ++ [row])
    else
      .error ("Invalid schema type: " ++ jsDisplayOpt schemaType)

/-- readDatabaseSchemas (database.js): parse the page-1 header at offset
100, then walk the cell-pointer array that begins right after the header,
decoding every cell with the leaf layout regardless of the page type. -/
def readDatabaseSchemas (buffer : List Nat) : Except String (List Row × List Row) := do
  let ph ← parsePageHeader buffer 100
  readDatabaseSchemasLoop buffer ph.pageType ph.numberOfCells (ph.pageHeaderSize + 100) [] []

/-! ## Index B-tree walk over raw pages (readIndexPage in the source;
the same function is named readIndexData in database.js) -/

/-- The per-cell loop of parseIndexLeafPage: stop at the first key greater
than the filter value, collect keys strictly equal to it. -/
def parseIndexLeafPageLoop (buffer : List Nat) (filterValue : JSValue) :
    Nat → Nat → Except String (List Row)
  | 0, _ => .ok []
  | n + 1, cursor => do
    let cellPointer := readUInt16BE buffer cursor
    let r := readVarInt buffer cellPointer
    let payload := (buffer.drop (cellPointer + r.bytesRead)).take r.value.toNat
    let row ← parseRow payload INDEX_COLUMNS
    let key := rowGet row "key"
    if jsGtOpt key filterValue then .ok []
    else if strictEqOpt key filterValue then do
      let rest ← parseIndexLeafPageLoop buffer filterValue n (cursor + 2)
      .ok (row :: rest)
    else parseIndexLeafPageLoop buffer filterValue n (cursor + 2)

/-- parseIndexLeafPage (database.js): cells start right after the 8-byte
leaf header. -/
def parseIndexLeafPage (buffer : List Nat) (numberOfCells : Nat) (filterValue : JSValue) :
    Except String (List Row) :=
  parseIndexLeafPageLoop buffer filterValue numberOfCells 8

/-- The per-cell loop of parseIndexInteriorPage: collect, for every cell,
the left-child page number and the key of the record stored in the cell.
The rest of the interior record (its row id) is discarded. -/
def parseIndexInteriorPageLoop (buffer : List Nat) :
    Nat → Nat → Except String (List (Nat × Option JSValue))
  | 0, _ => .ok []
  | n + 1, cursor => do
    let cellPointer := readUInt16BE buffer cursor
    let page := readUInt32BE buffer cellPointer
    let r := readVarInt buffer (cellPointer + 4)
    let payload := (buffer.drop (cellPointer + 4 + r.bytesRead)).take r.value.toNat
    let row ← parseRow payload INDEX_COLUMNS
    let rest ← parseIndexInteriorPageLoop buffer n (cursor + 2)
    .ok ((page, rowGet row "key") :: rest)

/-- parseIndexInteriorPage (database.js): cells start right after the
12-byte interior header. -/
def parseIndexInteriorPage (buffer : List Nat) (numberOfCells : Nat) :
    Except String (List (Nat × Option JSValue)) :=
  parseIndexInteriorPageLoop buffer numberOfCells 12

/-- The child loop of readIndexPage, with its stop-at-first-empty-probe
behavior; descending into a child page goes through the walk continuation
passed as recur. -/
def readIndexPageCells (filterValue : JSValue)
    (recur : Nat → Except String (List Row)) :
    List (Nat × Option JSValue) → Except String (List Row)
  | [] => .ok []
  | (pg, keyValue) :: rest =>
    if jsGeOpt keyValue filterValue then do
      let sub ← recur pg
      if sub.isEmpty then .ok []
      else do
        let more ← readIndexPageCells filterValue recur rest
        .ok (sub ++ more)
    else readIndexPageCells filterValue recur rest

/-- readIndexPage (select.js import; the same code is readIndexData in
database.js): on an index-interior page, descend into every child whose
key is at least the filter value, stopping at the first child that comes
back empty, then always descend into the right-most child; on an
index-leaf page, collect the matching cells; on any other (table) page
type, return the empty list. The source recurses on untrusted child page
numbers, so the embedding carries explicit recursion fuel; fuel exhaustion
models the non-termination a cyclic page graph would cause. -/
def readIndexPage (file : List Nat) (pageSize : Nat) (filterValue : JSValue) :
    Nat → Nat → Except String (List Row)
  | 0, _ => .error "recursion limit exceeded"
  | fuel + 1, page => do
    let buffer := fetchPage file page pageSize
    let ph ← parsePageHeader buffer 0
    if ph.pageType = 2 then do
      let keys ← parseIndexInteriorPage buffer ph.numberOfCells
      let fromCells ← readIndexPageCells filterValue
        (fun pg => readIndexPage file pageSize filterValue fuel pg) keys
      match ph.rightMostPointer with
      | some rmp => do
        let sub ← readIndexPage file pageSize filterValue fuel rmp
        .ok (fromCells ++ sub)
      | none => .ok fromCells
    else if ph.pageType = 10 then
      parseIndexLeafPage buffer ph.numberOfCells filterValue
    else .ok []

/-! ## Executor pieces (select.js) -/

/-- The table-name and column list that parseIndex (sqlparser.js) extracts
from a CREATE INDEX statement. The regex extraction itself operates on the
DDL text; the executor claims depend only on the extracted fields, which
this structure models directly. -/
structure IndexDescriptor where
  tableName : String
  columns : List String
deriving DecidableEq, Repr

/-- searchIndex (select.js): the first index whose target table is the
queried table and whose indexed-column list CONTAINS the predicate column. -/
def searchIndex (queryTableName : String) (filterKey : String)
    (indexes : List IndexDescriptor) : Option IndexDescriptor :=
  indexes.find? (fun idx => idx.tableName == queryTableName && idx.columns.contains filterKey)

/-- filterRows (select.js): with an empty where clause return the rows
unchanged, otherwise keep the rows whose value at the predicate column is
strictly equal to the predicate literal. -/
def filterRows (rows : List Row) (whereClause : List (String × JSValue)) : List Row :=
  match whereClause with
  | [] => rows
  | (filterColumn, filterValue) :: _ =>
    rows.filter (fun row => strictEqOpt (rowGet row filterColumn) filterValue)

/-! ## Top-level process outcome (main in main.js / the catch-all wrapper) -/

/-- What one invocation leaves behind: the process exit code and the lines
written to stdout and stderr. -/
structure ProcessOutcome where
  exitCode : Nat
  stdoutLines : List String
  stderrLines : List String
deriving DecidableEq, Repr

/-- main (main.js): the whole command dispatch runs inside one
try/catch/finally; the catch prints the error to stderr with the prefix
Fatal error and falls through, and no exit code is ever assigned on any
path, so the process exits 0 whether or not the command failed. -/
def mainOutcome (commandResult : Except String (List String)) : ProcessOutcome :=
  match commandResult with
  | .ok lines => ⟨0, lines, []⟩
  | .error e => ⟨0, [], ["Fatal error: " ++ e]⟩

/-! ## The schema walk the spec prescribes (not present in the source) -/

/-- Modelled from the spec: the leaf-page half of the prescribed schema
walk; decode each cell against the schema columns and partition by the
type column, rejecting any other type. -/
def specSchemaWalkLeaf (buffer : List Nat) :
    Nat → Nat → List Row × List Row → Except String (List Row × List Row)
  | 0, _, acc => .ok acc
  | n + 1, cursor, acc => do
    let cellPointer := readUInt16BE buffer cursor
    let cell := readCellPayload 13 buffer cellPointer
    let row ← parseRow cell.payload SCHEMA_COLUMNS
    let schemaType := rowGet row "schemaType"
    if strictEqOpt schemaType (.str (strBytes "table")) then
      specSchemaWalkLeaf buffer n (cursor + 2) (acc.1 ++ [row], acc.2)
    else if strictEqOpt schemaType (.str (strBytes "index")) then
      specSchemaWalkLeaf buffer n (cursor + 2) (acc.1, acc.2 ++ [row])
    else
      .error ("Invalid schema type: " ++ jsDisplayOpt schemaType)

/-- Modelled from the spec: the interior-page half of the prescribed
schema walk; each cell holds a left-child page number to descend into,
through the walk continuation passed as recur. -/
def specSchemaWalkInterior
    (recur : Nat → List Row × List Row → Except String (List Row × List Row))
    (buffer : List Nat) :
    Nat → Nat → List Row × List Row → Except String (List Row × List Row)
  | 0, _, acc => .ok acc
  | n + 1, cursor, acc => do
    let cellPointer := readUInt16BE buffer cursor
    let childPage := readUInt32BE buffer cellPointer
    let acc ← recur childPage acc
    specSchemaWalkInterior recur buffer n (cursor + 2) acc

/-- Modelled from the spec: section 4.5 requires the schema loader to
handle a table-interior page 1 by falling through to the standard
tableScan walker; the source has no such walk, so it is modelled here from
the words of the spec. Leaf pages classify each decoded record into
tables/indexes exactly as section 4.5 describes; interior pages recurse
into every child in order and then into the right-most child. The
recursion over untrusted page numbers carries explicit fuel. -/
def specSchemaWalk (file : List Nat) (pageSize : Nat) :
    Nat → Nat → Nat → List Row × List Row → Except String (List Row × List Row)
  | 0, _, _, _ => .error "recursion limit exceeded"
  | fuel + 1, page, headerOffset, acc => do
    let buffer := fetchPage file page pageSize
    let ph ← parsePageHeader buffer headerOffset
    if ph.pageType = 13 then
      specSchemaWalkLeaf buffer ph.numberOfCells (ph.pageHeaderSize + headerOffset) acc
    else if ph.pageType = 5 then do
      let acc ← specSchemaWalkInterior
        (fun childPage acc => specSchemaWalk file pageSize fuel childPage 0 acc)
        buffer ph.numberOfCells (ph.pageHeaderSize + headerOffset) acc
      match ph.rightMostPointer with
      | some rmp => specSchemaWalk file pageSize fuel rmp 0 acc
      | none => .ok acc
    else .error ("invalid page type: " ++ toString ph.pageType)

/-- Modelled from the spec: the schema loader as section 4.5 prescribes it,
walking the schema B-tree from page 1 (whose header starts at offset 100)
through the generic walk above. -/
def readDatabaseSchemasSpec (file : List Nat) (pageSize fuel : Nat) :
    Except String (List Row × List Row) :=
  specSchemaWalk file pageSize fuel 1 100 ([], [])

/-! ## The B-tree traversal layer (tableScan, indexScan, readIndexData)

The traversal claims concern the recursive walkers of database.js and
select.js. The walkers fetch a page by number, parse it, and recurse into
child page numbers; on an acyclic page graph this is exactly a recursion
over the tree of parsed pages, which is the representation used here: a
table B-tree is the tree whose leaves carry the decoded cells (row id plus
the record decoded by parseRow, as parseTableLeafPage computes it) and
whose interior nodes carry the child pointers in cell order (subtree
paired with the rowId field of the cell) together with the right-most
child. Record-decoding itself, including its error behavior, is the byte
layer verified above; a decode error aborts a scan in the source and is
outside the traversal claims. -/

/-- One table-leaf cell: the cell row id and the decoded record. -/
structure TableCell where
  rowId : Nat
  row : Row
deriving DecidableEq, Repr

/-- A table B-tree of parsed pages. Interior nodes store, per cell, the
left-child subtree and the cell rowId (the largest row id in that
subtree), plus the right-most child. -/
inductive TableTree where
  | leaf : List TableCell → TableTree
  | interior : List (TableTree × Nat) → TableTree → TableTree

/-- An index B-tree of parsed pages. Interior nodes store, per cell, the
left-child subtree and the full record of the cell (an index entry);
parseIndexInteriorPage keeps only the key of that record for navigation. -/
inductive IndexTree where
  | leaf : List Row → IndexTree
  | interior : List (IndexTree × Row) → IndexTree → IndexTree

/-- parseTableLeafPage (database.js) on parsed cells: decode every cell,
overwrite the identity column with the cell row id, and, when index data
is supplied, keep only the cells whose row id strictly equals the rowId
field of some index entry. -/
def parseTableLeafPage (identityColumn : Option String) (indexData : Option (List Row))
    (cells : List TableCell) : List Row :=
  cells.flatMap (fun c =>
    let row := match identityColumn with
      | some ic => rowSet c.row ic (.num c.rowId)
      | none => c.row
    match indexData with
    | some entries =>
      if (entries.find? (fun e => strictEqOpt (rowGet e "rowId") (.num c.rowId))).isSome
      then [row] else []
    | none => [row])

mutual

/-- tableScan (database.js): leaf pages emit their cells in order; interior
pages emit every child in cell order and then the right-most child. -/
def tableScan (identityColumn : Option String) : TableTree → List Row
  | .leaf cells => parseTableLeafPage identityColumn none cells
  | .interior children rm =>
    tableScanChildren identityColumn children ++ tableScan identityColumn rm

/-- The child loop of tableScan. -/
def tableScanChildren (identityColumn : Option String) :
    List (TableTree × Nat) → List Row
  | [] => []
  | c :: rest =>
    tableScan identityColumn c.1 ++ tableScanChildren identityColumn rest

end

/-- Set.add on the list of already-collected child indices: JS Set keeps
first-insertion order and ignores re-insertions. -/
def insertUniq (l : List Nat) (i : Nat) : List Nat :=
  if i ∈ l then l else l ++ [i]

/-- The inner loop of filterChildPointers for one index entry: walking the
child pointers in order, remember the last pointer whose rowId is at most
the entry rowId (from), and stop at the first pointer whose rowId is at
least the entry rowId (to). Returns the positions of the two pointers. -/
def findFromTo (r : Option JSValue) (i : Nat) (acc : Option Nat) :
    List (TableTree × Nat) → Option Nat × Option Nat
  | [] => (acc, none)
  | c :: rest =>
    let acc := if jsGeOpt r (.num c.2) then some i else acc
    if jsLeOpt r (.num c.2) then (acc, some i) else findFromTo r (i + 1) acc rest

/-- filterChildPointers (database.js): for every index entry, add the from
and to pointers found by the inner loop to a Set; the result keeps
first-insertion order. Positions stand in for the JS object identities
the source Set stores. -/
def filterChildPointers (children : List (TableTree × Nat)) (indexData : List Row) :
    List Nat :=
  indexData.foldl
    (fun acc e =>
      let ft := findFromTo (rowGet e "rowId") 0 none children
      let acc := match ft.1 with | some i => insertUniq acc i | none => acc
      match ft.2 with | some i => insertUniq acc i | none => acc)
    []

mutual

/-- indexScan (database.js): like tableScan, but leaf cells are filtered
against the index data and interior children are pruned through
filterChildPointers; the right-most child is always visited. The source
only descends into the selected children; since the walk is pure, the
same function is computed here by pairing every child with its scan and
selecting by position afterwards, which keeps the recursion structural. -/
def indexScan (identityColumn : Option String) (indexData : List Row) :
    TableTree → List Row
  | .leaf cells => parseTableLeafPage identityColumn (some indexData) cells
  | .interior children rm =>
    (filterChildPointers children indexData).flatMap
      (fun i => (indexScanChildren identityColumn indexData children).getD i [])
    ++ indexScan identityColumn indexData rm

/-- The scans of every child of an interior page, in cell order. -/
def indexScanChildren (identityColumn : Option String) (indexData : List Row) :
    List (TableTree × Nat) → List (List Row)
  | [] => []
  | c :: rest =>
    indexScan identityColumn indexData c.1
    :: indexScanChildren identityColumn indexData rest

end

/-- The cell loop of parseIndexLeafPage (database.js) on parsed entries:
stop at the first key greater than the filter value, keep the entries
whose key strictly equals it. -/
def indexLeafScan (filterValue : JSValue) : List Row → List Row
  | [] => []
  | e :: rest =>
    if jsGtOpt (rowGet e "key") filterValue then []
    else if strictEqOpt (rowGet e "key") filterValue then
      e :: indexLeafScan filterValue rest
    else indexLeafScan filterValue rest

mutual

/-- readIndexData (database.js) on the tree of parsed index pages: descend
into every interior cell whose key is at least the filter value, stopping
at the first child that produces no matches, then always descend into the
right-most child; collect matching cells on leaf pages. -/
def readIndexData (filterValue : JSValue) : IndexTree → List Row
  | .leaf entries => indexLeafScan filterValue entries
  | .interior cells rm =>
    readIndexDataCells filterValue cells ++ readIndexData filterValue rm

/-- The child loop of readIndexData with its stop-at-first-empty-probe
behavior; only the key of each interior record is consulted, the record
itself is never emitted. -/
def readIndexDataCells (filterValue : JSValue) : List (IndexTree × Row) → List Row
  | [] => []
  | (child, crow) :: rest =>
    if jsGeOpt (rowGet crow "key") filterValue then
      let sub := readIndexData filterValue child
      if sub.isEmpty then []
      else sub ++ readIndexDataCells filterValue rest
    else readIndexDataCells filterValue rest

end

/-! ## Validity of a table B-tree

The invariants section 3 of the spec states for well-formed databases:
within a page, rowIds ascend strictly; an interior cell with rowId K
covers exactly the descendants with rowIds at most K and greater than the
previous cell rowId; the right-most child covers the rowIds greater than
the last cell rowId. -/

mutual

/-- The cells of a table B-tree in traversal (ascending row-id) order. -/
def cellsOf : TableTree → List TableCell
  | .leaf cells => cells
  | .interior children rm => cellsOfChildren children ++ cellsOf rm

/-- cellsOf over a child-pointer list. -/
def cellsOfChildren : List (TableTree × Nat) → List TableCell
  | [] => []
  | c :: rest => cellsOf c.1 ++ cellsOfChildren rest

end

/-- Strictly ascending row ids within a leaf. -/
def rowIdsAsc : List TableCell → Bool
  | [] => true
  | [_] => true
  | a :: b :: rest => decide (a.rowId < b.rowId) && rowIdsAsc (b :: rest)

/-- Every cell of the subtree has row id at most k. -/
def cellsLe (k : Nat) (t : TableTree) : Bool :=
  (cellsOf t).all (fun c => decide (c.rowId ≤ k))

/-- Every cell of the subtree has row id greater than k. -/
def cellsGt (k : Nat) (t : TableTree) : Bool :=
  (cellsOf t).all (fun c => decide (k < c.rowId))

mutual

/-- Well-formedness of a table B-tree: leaf cells strictly ascend; interior
cell rowIds strictly ascend, each child covers exactly the row-id window
between the previous cell rowId and its own, the right-most child covers
the row ids above every cell rowId, and all subtrees are well-formed. -/
def tableValid : TableTree → Bool
  | .leaf cells => rowIdsAsc cells
  | .interior children rm =>
    childrenValid none children
    && children.all (fun c => cellsGt c.2 rm)
    && tableValid rm

/-- The per-cell half of tableValid, threading the previous cell rowId. -/
def childrenValid : Option Nat → List (TableTree × Nat) → Bool
  | _, [] => true
  | prev, c :: rest =>
    (match prev with | some p => decide (p < c.2) | none => true)
    && cellsLe c.2 c.1
    && (match prev with | some p => cellsGt p c.1 | none => true)
    && tableValid c.1
    && childrenValid (some c.2) rest

end

deriving instance DecidableEq for Except

/-! ## Loop-free characterization of readVarInt (for claims C2 and C9) -/

/-- The high (continuation) bit of a byte. -/
def varIntContinues (b : Nat) : Bool := b.testBit 7

/-- The bytes a varint decode starting at offset consumes when at most
fuel loop iterations remain, stated without the loop: the window of at
most fuel bytes from the offset, cut after the first byte with a clear
high bit, with a terminating zero standing in for the first out-of-range
read when the buffer ends inside the window. -/
def varIntConsumedFuel (buffer : List Nat) (offset fuel : Nat) : List Nat :=
  ((buffer.drop offset).take fuel ++ [0]).take
    (min fuel ((((buffer.drop offset).take fuel).takeWhile varIntContinues).length + 1))

/-- The bytes readVarInt consumes: the fuel-9 window. -/
def varIntConsumed (buffer : List Nat) (offset : Nat) : List Nat :=
  varIntConsumedFuel buffer offset 9

/-- The value the consumed bytes denote: big-endian accumulation of the
low seven bits of every consumed byte, reduced to a signed 32-bit
result. -/
def varIntSpecValue (bytes : List Nat) : Int :=
  jsToInt32 (bytes.foldl (fun a b => a * 128 + (b % 128 : Nat)) 0)

/-- The decoder claim C2 describes, written from its words: bytes 0 to 7
contribute their low 7 bits, big-endian, stopping after the first byte
whose high bit is clear; if a ninth byte is reached it contributes all 8
of its bits; the result is the accumulated unsigned value and the number
of bytes consumed. -/
def readVarIntClaimed (buffer : List Nat) (offset : Nat) : VarIntResult :=
  let w8 := (buffer.drop offset).take 8
  let k := (w8.takeWhile varIntContinues).length
  if k < 8 then
    ⟨(w8.take (k + 1)).foldl (fun a b => a * 128 + (b % 128 : Nat)) 0, k + 1⟩
  else
    ⟨(w8.foldl (fun a b => a * 128 + (b % 128 : Nat)) 0) * 256
       + (buffer.getD (offset + 8) 0 : Nat), 9⟩

/-! ## Claim C3: the serial-type table -/

/-- Big-endian base-256 value of a byte sequence. -/
def beNat (bytes : List Nat) : Nat :=
  bytes.foldl (fun a b => a * 256 + b) 0

/-- The serial-type table readValue actually implements, stated as a case
table: NULL for 0, 8, 9, 12 and 13; signed 8-bit for 1; UNSIGNED
big-endian for 2, 3, 4 (widths 2..4 bytes), 5 (6 bytes); unsigned 64-bit
BigInt for both 6 and 7; blob of (N-12)/2 bytes for even N at least 14;
text of (N-13)/2 bytes for odd N at least 15; an error for everything
else (10, 11 and negative or malformed codes). -/
def readValueTable (buffer : List Nat) (cursor : Nat) (serialType : Int) :
    Except String (JSValue × Nat) :=
  if serialType = 0 ∨ serialType = 8 ∨ serialType = 9 ∨ serialType = 12 ∨ serialType = 13 then
    .ok (.null, cursor)
  else if serialType = 1 then
    .ok (.num (let b := buffer.getD cursor 0; if b < 128 then (b : Int) else (b : Int) - 256),
      cursor + 1)
  else if serialType = 2 then
    .ok (.num (beNat ((buffer.drop cursor).take 2)), cursor + 2)
  else if serialType = 3 then
    .ok (.num (beNat ((buffer.drop cursor).take 3)), cursor + 3)
  else if serialType = 4 then
    .ok (.num (beNat ((buffer.drop cursor).take 4)), cursor + 4)
  else if serialType = 5 then
    .ok (.num (beNat ((buffer.drop cursor).take 6)), cursor + 6)
  else if serialType = 6 ∨ serialType = 7 then
    .ok (.bignum (beNat ((buffer.drop cursor).take 8)), cursor + 8)
  else if 14 ≤ serialType ∧ serialType % 2 = 0 then
    .ok (.blob ((buffer.drop cursor).take ((serialType - 12) / 2).toNat),
      cursor + ((serialType - 12) / 2).toNat)
  else if 15 ≤ serialType ∧ serialType % 2 = 1 then
    .ok (.str ((buffer.drop cursor).take ((serialType - 13) / 2).toNat),
      cursor + ((serialType - 13) / 2).toNat)
  else .error ("Unknown serial type: " ++ toString serialType)

/-! ## Claim C7: schema loading and interior page 1 -/

set_option maxRecDepth 10000

/-- Zero-padding of a page image to its declared size (Buffer.alloc). -/
def padTo (n : Nat) (l : List Nat) : List Nat := l ++ List.replicate (n - l.length) 0

/-- A one-table sqlite_schema record: type table, the given name as both
name and tbl_name, root page 1 and a one-byte SQL body. -/
def schemaRecordFor (name : List Nat) : List Nat :=
  [6, 23, 13 + 2 * name.length, 13 + 2 * name.length, 1, 15]
    ++ strBytes "table" ++ name ++ name ++ [1] ++ strBytes "x"

/-- A table-leaf page (header at offset 0) holding one schema record, its
cell at offset 200. -/
def leafSchemaPage (name : List Nat) : List Nat :=
  let record := schemaRecordFor name
  padTo 256 (padTo 200 ([13, 0, 0, 0, 1, 0, 200, 0] ++ [0, 200])
    ++ [record.length, 1] ++ record)

/-- A table-INTERIOR page 1 (100-byte file header, page header at offset
100): one cell pointing at child page 2, right-most child page 3. -/
def interiorPage1 : List Nat :=
  padTo 256 (padTo 200 (List.replicate 100 0
    ++ [5, 0, 0, 0, 1, 0, 200, 0] ++ [0, 0, 0, 3] ++ [0, 200]) ++ [0, 0, 0, 2, 1])

/-- A 3-page database (page size 256) whose schema B-tree has an interior
root: page 1 is table-interior, pages 2 and 3 are schema leaves holding
the tables apples and oranges. -/
def c7File : List Nat :=
  interiorPage1 ++ leafSchemaPage (strBytes "apples") ++ leafSchemaPage (strBytes "oranges")

/-- A one-page database whose schema root is a regular table leaf. -/
def c7LeafFile : List Nat :=
  let record := schemaRecordFor (strBytes "apples")
  padTo 256 (padTo 200 (List.replicate 100 0 ++ [13, 0, 0, 0, 1, 0, 200, 0] ++ [0, 200])
    ++ [record.length, 1] ++ record)

/-! Infra for C1/C5 -/

/-- The row a leaf cell contributes: the decoded record with the identity
column overwritten by the cell row id. -/
def applyIdentity (identityColumn : Option String) (c : TableCell) : Row :=
  match identityColumn with
  | some ic => rowSet c.row ic (.num c.rowId)
  | none => c.row

/-- Whether some index entry carries exactly this row id (the find in
parseTableLeafPage). -/
def rowIdMatch (indexData : List Row) (rid : Nat) : Bool :=
  (indexData.find? (fun e => strictEqOpt (rowGet e "rowId") (.num rid))).isSome

/-- Custom induction principle for the nested tree. -/
def TableTree.myInduction {P : TableTree → Prop}
    (hleaf : ∀ cells, P (.leaf cells))
    (hinterior : ∀ children rm, (∀ c ∈ children, P c.1) → P rm → P (.interior children rm)) :
    ∀ t, P t
  | .leaf cells => hleaf cells
  | .interior children rm =>
    hinterior children rm
      (fun c hc => TableTree.myInduction hleaf hinterior c.1)
      (TableTree.myInduction hleaf hinterior rm)
termination_by t => sizeOf t
decreasing_by
  · have h1 : sizeOf c < sizeOf children := List.sizeOf_lt_of_mem hc
    rcases c with ⟨t, n⟩
    simp only [Prod.mk.sizeOf_spec] at h1
    simp only [TableTree.interior.sizeOf_spec]
    omega
  · simp only [TableTree.interior.sizeOf_spec]
    omega

/-- One step of the filterChildPointers fold, with the two optional
insertions spelled out. -/
def fcpStep (children : List (TableTree × Nat)) (acc : List Nat) (e : Row) : List Nat :=
  match (findFromTo (rowGet e "rowId") 0 none children).1,
        (findFromTo (rowGet e "rowId") 0 none children).2 with
  | some f, some t => insertUniq (insertUniq acc f) t
  | some f, none => insertUniq acc f
  | none, some t => insertUniq acc t
  | none, none => acc

/-- Key comparison between two index entries: the later key is not
smaller (vacuously true when either key is not text). -/
def keyLeB (a b : Row) : Bool :=
  match rowGet a "key", rowGet b "key" with
  | some (.str sa), some (.str sb) => !lexLt sb sa
  | _, _ => true

/-- The per-key ordering hypothesis for an index leaf: no later entry has
a smaller key. -/
def keysNondecreasing (entries : List Row) : Prop :=
  List.Pairwise (fun a b => keyLeB a b = true) entries

instance : DecidablePred keysNondecreasing := by
  intro entries
  unfold keysNondecreasing
  infer_instance

/-- Whether a looked-up value is text. -/
def isText (o : Option JSValue) : Bool :=
  match o with
  | some (.str _) => true
  | _ => false

/-- Concrete single-leaf instance for the amended C1 equivalence: a
two-row table indexed by a two-entry leaf. -/
def c1wTable : TableTree :=
  .leaf [⟨1, [("id", .num 1), ("a", .str [65])]⟩,
         ⟨2, [("id", .num 2), ("a", .str [66])]⟩]

def c1wEntries : List Row :=
  [[("key", .str [65]), ("rowId", .num 1)],
   [("key", .str [66]), ("rowId", .num 2)]]

mutual

/-- The entries an index B-tree stores, in key order: interior cells
carry full entries between their subtrees (SQLite index interior cells
are themselves entries, which readIndexData never emits). -/
def inOrderEntries : IndexTree → List Row
  | .leaf es => es
  | .interior cells rm => inOrderEntriesCells cells ++ inOrderEntries rm

/-- inOrderEntries over an interior cell list. -/
def inOrderEntriesCells : List (IndexTree × Row) → List Row
  | [] => []
  | (child, crow) :: rest => inOrderEntries child ++ crow :: inOrderEntriesCells rest

end

/-- A three-row table whose middle row is reachable only through the
entry stored in an interior cell of its two-level index. -/
def c1xTable : TableTree :=
  .leaf [⟨10, [("a", .str [117])]⟩, ⟨20, [("a", .str [118])]⟩, ⟨30, [("a", .str [119])]⟩]

def c1xIndex : IndexTree :=
  .interior [(.leaf [[("key", .str [117]), ("rowId", .num 10)]],
              [("key", .str [118]), ("rowId", .num 20)])]
    (.leaf [[("key", .str [119]), ("rowId", .num 30)]])

/-- A valid two-cell interior tree on which indexScan's output order
follows the insertion order of the child-pointer Set. -/
def c5Table : TableTree :=
  .interior [(.leaf [⟨1, [("v", .num 1)]⟩], 1), (.leaf [⟨2, [("v", .num 2)]⟩], 2)]
    (.leaf [⟨3, [("v", .num 3)]⟩])

def c5e1 : Row := [("rowId", JSValue.num 1)]

def c5e2 : Row := [("rowId", JSValue.num 2)]

theorem jsToInt32_idem_mul_add (x c : Int) :
    jsToInt32 (jsToInt32 x * 128 + c) = jsToInt32 (x * 128 + c) := by
  unfold jsToInt32
  omega

theorem foldl_varIntStep_eq (l : List Nat) (w : Int) :
    l.foldl varIntStep (jsToInt32 w) =
      jsToInt32 (l.foldl (fun a b => a * 128 + (b % 128 : Nat)) w) := by
  induction l generalizing w with
  | nil => rfl
  | cons b rest ih =>
    simp only [List.foldl]
    rw [show varIntStep (jsToInt32 w) b = jsToInt32 (w * 128 + (b % 128 : Nat)) from
      jsToInt32_idem_mul_add w _]
    exact ih _

theorem varIntConsumedFuel_stop (buffer : List Nat) (offset fuel : Nat)
    (hc : (buffer.getD offset 0).testBit 7 = false) :
    varIntConsumedFuel buffer offset (fuel + 1) = [buffer.getD offset 0] := by
  unfold varIntConsumedFuel
  by_cases hin : offset < buffer.length
  · have h2 : buffer.getD offset 0 = buffer[offset] := List.getD_eq_getElem buffer 0 hin
    rw [List.drop_eq_getElem_cons hin, List.take_succ_cons,
      List.takeWhile_cons_of_neg (by unfold varIntContinues; rw [← h2, hc]; simp), h2]
    simp
  · push_neg at hin
    have hdrop : buffer.drop offset = [] := List.drop_eq_nil_of_le hin
    have h0 : buffer.getD offset 0 = 0 := by
      simp [List.getD_eq_getElem?_getD, List.getElem?_eq_none (by omega : buffer.length ≤ offset)]
    rw [hdrop, h0]
    simp

theorem varIntConsumedFuel_cons (buffer : List Nat) (offset fuel : Nat)
    (hc : (buffer.getD offset 0).testBit 7 = true) :
    varIntConsumedFuel buffer offset (fuel + 1) =
      buffer.getD offset 0 :: varIntConsumedFuel buffer (offset + 1) fuel := by
  have hin : offset < buffer.length := by
    by_contra hout
    push_neg at hout
    have h0 : buffer.getD offset 0 = 0 := by
      simp [List.getD_eq_getElem?_getD, List.getElem?_eq_none (by omega : buffer.length ≤ offset)]
    rw [h0] at hc
    simp [Nat.testBit] at hc
  have h2 : buffer.getD offset 0 = buffer[offset] := List.getD_eq_getElem buffer 0 hin
  unfold varIntConsumedFuel
  rw [List.drop_eq_getElem_cons hin, List.take_succ_cons,
    List.takeWhile_cons_of_pos (by unfold varIntContinues; rw [← h2]; exact hc),
    h2, List.length_cons, List.cons_append]
  rw [show min (fuel + 1)
        ((((buffer.drop (offset + 1)).take fuel).takeWhile varIntContinues).length + 1 + 1)
      = (min fuel
        ((((buffer.drop (offset + 1)).take fuel).takeWhile varIntContinues).length + 1)) + 1
    from by omega, List.take_succ_cons]

theorem readVarIntLoop_spec (buffer : List Nat) (offset : Nat) :
    ∀ fuel i value bytesRead,
      readVarIntLoop buffer offset fuel i value bytesRead =
        ⟨(varIntConsumedFuel buffer (offset + i) fuel).foldl varIntStep value,
         bytesRead + (varIntConsumedFuel buffer (offset + i) fuel).length⟩ := by
  intro fuel
  induction fuel with
  | zero =>
    intro i value bytesRead
    simp [readVarIntLoop, varIntConsumedFuel]
  | succ fuel ih =>
    intro i value bytesRead
    rw [readVarIntLoop]
    by_cases hc : (buffer.getD (offset + i) 0).testBit 7
    · simp only [hc, if_pos]
      rw [ih (i + 1)]
      rw [varIntConsumedFuel_cons buffer (offset + i) fuel hc,
        show offset + i + 1 = offset + (i + 1) from by omega]
      simp only [List.foldl_cons, List.length_cons]
      congr 1
      omega
    · simp only [hc, if_neg, Bool.false_eq_true, not_false_iff]
      rw [varIntConsumedFuel_stop buffer (offset + i) fuel (by simpa using hc)]
      simp [List.foldl]

/-- readVarInt computed without the loop: it consumes exactly the
varIntConsumed bytes and returns their 7-bit big-endian accumulation as a
signed 32-bit value. -/
theorem readVarInt_spec (buffer : List Nat) (offset : Nat) :
    readVarInt buffer offset =
      ⟨varIntSpecValue (varIntConsumed buffer offset), (varIntConsumed buffer offset).length⟩ := by
  have hfold := foldl_varIntStep_eq (varIntConsumed buffer offset) 0
  rw [show jsToInt32 (0 : Int) = 0 from by unfold jsToInt32; norm_num] at hfold
  unfold varIntConsumed at hfold
  rw [readVarInt, readVarIntLoop_spec buffer offset 9 0 0 0]
  unfold varIntSpecValue varIntConsumed
  rw [show offset + 0 = offset from by omega, hfold]
  simp

theorem varIntConsumed_length_le (buffer : List Nat) (offset : Nat) :
    (varIntConsumed buffer offset).length ≤ 9 := by
  unfold varIntConsumed varIntConsumedFuel
  simp

/-- C2, counterexample: on the complete nine-byte varint encoding
80 80 80 80 80 80 80 80 81, the claim says the ninth byte contributes all
8 of its bits, giving 129; readVarInt masks the ninth byte with 0x7f like
every other byte and returns 1. -/
theorem claim_C2_counterexample :
    readVarInt [128, 128, 128, 128, 128, 128, 128, 128, 129] 0 = ⟨1, 9⟩ ∧
    readVarIntClaimed [128, 128, 128, 128, 128, 128, 128, 128, 129] 0 = ⟨129, 9⟩ ∧
    readVarInt [128, 128, 128, 128, 128, 128, 128, 128, 129] 0 ≠
      readVarIntClaimed [128, 128, 128, 128, 128, 128, 128, 128, 129] 0 :=
  ⟨by decide, by decide, by decide⟩

/-- C2 (amended): readVarInt accumulates the low 7 bits of every byte it
consumes, the ninth included, into a 32-bit signed accumulator (JS bitwise
arithmetic), stopping after the first byte whose high bit is clear and
treating an out-of-range read as a terminating zero byte; it never
consumes more than 9 bytes. -/
theorem claim_C2 (buffer : List Nat) (offset : Nat) :
    readVarInt buffer offset =
      ⟨varIntSpecValue (varIntConsumed buffer offset),
       (varIntConsumed buffer offset).length⟩ ∧
    (readVarInt buffer offset).bytesRead ≤ 9 := by
  refine ⟨readVarInt_spec buffer offset, ?_⟩
  rw [readVarInt_spec]
  exact varIntConsumed_length_le buffer offset

/-- C9, counterexample: on the buffer 80 with every byte from the offset
carrying a set high bit, the claim says readVarInt fails with
TruncatedInput; instead it returns the value 0 and reports two bytes
consumed (the out-of-range read terminates the loop as a zero byte). -/
theorem claim_C9_counterexample :
    readVarInt [128] 0 = ⟨0, 2⟩ :=
  by decide

/-- C9 (amended): when every byte from the offset to the end of the buffer
has its high bit set, readVarInt does not fail: the first out-of-range
read behaves as a terminating zero byte (or the ninth iteration ends the
loop), and the reported number of bytes consumed is the smaller of
buffer length - offset + 1 and 9. -/
theorem claim_C9 (buffer : List Nat) (offset : Nat)
    (h : ∀ i, offset ≤ i → i < buffer.length → (buffer.getD i 0).testBit 7 = true) :
    readVarInt buffer offset =
      ⟨varIntSpecValue (varIntConsumed buffer offset),
       min (buffer.length - offset + 1) 9⟩ := by
  rw [readVarInt_spec]
  have hw : ((buffer.drop offset).take 9).takeWhile varIntContinues
      = (buffer.drop offset).take 9 := by
    rw [List.takeWhile_eq_self_iff]
    intro a ha
    have ha2 : a ∈ buffer.drop offset := List.mem_of_mem_take ha
    rcases List.mem_iff_getElem.mp ha2 with ⟨j, hj, hEq⟩
    have hj2 : offset + j < buffer.length := by
      have := List.length_drop offset buffer
      omega
    have : (buffer.drop offset)[j] = buffer[offset + j] := List.getElem_drop buffer
    rw [this] at hEq
    unfold varIntContinues
    rw [← hEq, ← List.getD_eq_getElem buffer 0 hj2]
    exact h (offset + j) (by omega) hj2
  congr 1
  unfold varIntConsumed varIntConsumedFuel
  rw [hw]
  simp only [List.length_take, List.length_append, List.length_drop, List.length_cons,
    List.length_nil]
  omega

/-- C9, witness: the amended claim at the concrete buffer 80 FF. -/
theorem claim_C9_witness :
    (∀ i, 0 ≤ i → i < ([128, 255] : List Nat).length →
      (([128, 255] : List Nat).getD i 0).testBit 7 = true) ∧
    readVarInt [128, 255] 0 =
      ⟨varIntSpecValue (varIntConsumed [128, 255] 0),
       min (([128, 255] : List Nat).length - 0 + 1) 9⟩ :=
  ⟨by decide, claim_C9 [128, 255] 0 (by decide)⟩

theorem readUIntBE_eq_beNat (buffer : List Nat) (cursor n : Nat) :
    readUIntBE buffer cursor n = ((beNat ((buffer.drop cursor).take n) : Nat) : Int) := by
  unfold readUIntBE beNat
  generalize (buffer.drop cursor).take n = l
  have key : ∀ (l : List Nat) (a : Nat),
      List.foldl (fun (x : Int) (b : Nat) => x * 256 + (b : Int)) (a : Int) l
        = ((List.foldl (fun (x : Nat) (b : Nat) => x * 256 + b) a l : Nat) : Int) := by
    intro l
    induction l with
    | nil => intro a; rfl
    | cons b rest ih =>
      intro a
      simp only [List.foldl_cons]
      rw [show ((a : Int) * 256 + (b : Int)) = ((a * 256 + b : Nat) : Int) from by push_cast; ring]
      exact ih (a * 256 + b)
  exact key l 0

/-- C3, counterexample: the claim says serial type 8 is the integer
constant 0 and serial type 2 a sign-extended signed 16-bit integer;
readValue returns NULL for type 8 and the unsigned value 65535 (not -1)
for type 2 on the bytes FF FF. -/
theorem claim_C3_counterexample :
    readValue [] 0 8 = .ok (.null, 0) ∧
    (Except.ok (JSValue.null, 0) : Except String (JSValue × Nat)) ≠ .ok (.num 0, 0) ∧
    readValue [255, 255] 0 2 = .ok (.num 65535, 2) ∧
    (65535 : Int) ≠ -1 :=
  ⟨by decide, by decide, by decide, by decide⟩

/-- C3 (amended): readValue implements exactly the corrected serial-type
table readValueTable: NULL for 0, 8, 9, 12, 13; signed 8-bit for 1;
unsigned (not sign-extended) big-endian integers of 2/3/4/6 bytes for
2/3/4/5; an unsigned 64-bit BigInt for both 6 and 7 (type 7 is never
decoded as a float); blobs and text only for N of at least 14; and an
error for 10 and 11. -/
theorem claim_C3 (buffer : List Nat) (cursor : Nat) (serialType : Int) :
    readValue buffer cursor serialType = readValueTable buffer cursor serialType := by
  unfold readValue readValueTable
  by_cases h0 : serialType = 0 ∨ serialType = 8 ∨ serialType = 9 ∨ serialType = 12 ∨
      serialType = 13
  · simp only [h0, if_pos]
  · simp only [h0, if_neg, not_false_iff]
    by_cases h12 : serialType > 12
    · have h1 : ¬ serialType = 1 := by omega
      have h2 : ¬ serialType = 2 := by omega
      have h3 : ¬ serialType = 3 := by omega
      have h4 : ¬ serialType = 4 := by omega
      have h5 : ¬ serialType = 5 := by omega
      have h67 : ¬ (serialType = 6 ∨ serialType = 7) := by omega
      simp only [h12, h1, h2, h3, h4, h5, h67, if_pos, if_neg, not_false_iff]
      by_cases hev : serialType % 2 = 0
      · have h14 : (14 : Int) ≤ serialType := by omega
        simp [hev, h14]
      · have hodd : serialType % 2 = 1 := by omega
        have h15 : (15 : Int) ≤ serialType := by omega
        simp [hev, hodd, h15]
    · simp only [h12, if_neg, not_false_iff]
      by_cases h1 : serialType = 1
      · simp only [h1]
        norm_num [readInt8]
      · simp only [h1, if_neg, not_false_iff]
        by_cases h2 : serialType = 2
        · simp only [h2, if_pos, readUIntBE_eq_beNat]
        · simp only [h2, if_neg, not_false_iff]
          by_cases h3 : serialType = 3
          · simp only [h3, if_pos, readUIntBE_eq_beNat]
          · simp only [h3, if_neg, not_false_iff]
            by_cases h4 : serialType = 4
            · simp only [h4, if_pos, readUIntBE_eq_beNat]
            · simp only [h4, if_neg, not_false_iff]
              by_cases h5 : serialType = 5
              · simp only [h5, if_pos, readUIntBE_eq_beNat]
              · simp only [h5, if_neg, not_false_iff]
                by_cases h67 : serialType = 6 ∨ serialType = 7
                · simp only [h67, if_pos, readUIntBE_eq_beNat]
                · have h14 : ¬ (14 ≤ serialType ∧ serialType % 2 = 0) := by omega
                  have h15 : ¬ (15 ≤ serialType ∧ serialType % 2 = 1) := by omega
                  simp only [h67, h14, h15, if_neg, not_false_iff]

/-! ## Claim C4: index selection in the executor -/

/-- C4, counterexample: with a single index on table t over the columns
(a, b) and the predicate column b, the claim says the executor must NOT
take the index path (b is not the FIRST indexed column); searchIndex
nevertheless finds the index, because the source tests membership with
columns.includes, so the executor takes the index-driven path. -/
theorem claim_C4_counterexample :
    (searchIndex "t" "b" [⟨"t", ["a", "b"]⟩]).isSome = true ∧
    ([(⟨"t", ["a", "b"]⟩ : IndexDescriptor)].any
      (fun idx => idx.tableName == "t" && idx.columns.head? == some "b")) = false :=
  ⟨by decide, by decide⟩

/-- C4 (amended): the executor takes the index-driven path exactly when
some index whose target table is the queried table lists the predicate
column ANYWHERE among its indexed columns (membership, not first-column
equality); otherwise it falls back to the full tableScan with the
in-memory filter. -/
theorem claim_C4 (queryTableName filterKey : String) (indexes : List IndexDescriptor) :
    (searchIndex queryTableName filterKey indexes).isSome
      = indexes.any (fun idx => idx.tableName == queryTableName
          && idx.columns.contains filterKey) := by
  rw [Bool.eq_iff_iff]
  unfold searchIndex
  rw [List.find?_isSome, List.any_eq_true]

/-! ## Claim C6: short records -/

/-- C6: the record 02 0F 41 is a one-column record (header size 2, one
serial type 0F = text of one byte, body 41 = the letter A); decoded
against two expected columns the spec requires (A, NULL). parseRow
instead reads one serial-type varint per expected column, so it consumes
the body byte 41 as the second serial type, leaving both values to be
read past the record: it returns two empty strings. -/
theorem claim_C6 :
    parseRow [2, 15, 65] ["c1", "c2"] = .ok [("c1", .str []), ("c2", .str [])] ∧
    parseRow [2, 15, 65] ["c1", "c2"] ≠ .ok [("c1", .str [65]), ("c2", .null)] :=
  ⟨by decide, by decide⟩

/-! ## Claim C8: process exit behavior -/

/-- C8, counterexample: on a failed command (for example an unknown
table), the claim requires a non-zero exit code; main catches the error,
prints it to stderr and falls through without ever assigning an exit
code, so the process exits 0. -/
theorem claim_C8_counterexample :
    mainOutcome (.error "Table oranges not found")
      = ⟨0, [], ["Fatal error: Table oranges not found"]⟩ ∧
    (mainOutcome (.error "Table oranges not found")).exitCode = 0 :=
  ⟨rfl, rfl⟩

/-- C8 (amended): the process exits 0 on every path, success or failure;
on failure the error is written to stderr with the prefix Fatal error and
nothing is written to stdout, and on success stdout carries exactly the
requested output with nothing on stderr. -/
theorem claim_C8 :
    (∀ e : String, mainOutcome (.error e) = ⟨0, [], ["Fatal error: " ++ e]⟩) ∧
    (∀ lines : List String, mainOutcome (.ok lines) = ⟨0, lines, []⟩) :=
  ⟨fun _ => rfl, fun _ => rfl⟩

/-! ## Claim C10: readIndexPage on table pages, parsePageHeader errors -/

/-- C10: invoked on a table-leaf (0x0d) or table-interior (0x05) page,
readIndexPage falls through both index branches and returns the empty
list without raising an error; and parsePageHeader succeeds exactly on
the four page types 0x02, 0x05, 0x0a, 0x0d (for any byte value at the
header offset). -/
theorem claim_C10 :
    (∀ (file : List Nat) (pageSize page fuel : Nat) (filterValue : JSValue),
      (fetchPage file page pageSize).getD 0 0 = 13 ∨
        (fetchPage file page pageSize).getD 0 0 = 5 →
      readIndexPage file pageSize filterValue (fuel + 1) page = .ok []) ∧
    (∀ (buffer : List Nat) (offset : Nat), buffer.getD offset 0 < 256 →
      ((parsePageHeader buffer offset).isOk = true ↔
        buffer.getD offset 0 = 2 ∨ buffer.getD offset 0 = 5 ∨
        buffer.getD offset 0 = 10 ∨ buffer.getD offset 0 = 13)) := by
  constructor
  · intro file pageSize page fuel filterValue h
    simp only [List.getD_eq_getElem?_getD] at h
    rcases h with h | h <;>
      simp [readIndexPage, parsePageHeader, readInt8, getPageHeaderSize, h,
        List.getD_eq_getElem?_getD, Bind.bind, Except.bind]
  · intro buffer offset hb
    simp only [List.getD_eq_getElem?_getD] at hb ⊢
    by_cases h2 : buffer[offset]?.getD 0 = 2
    · simp [parsePageHeader, readInt8, getPageHeaderSize, h2, List.getD_eq_getElem?_getD,
        Except.isOk, Except.toBool, Bind.bind, Except.bind]
    · by_cases h5 : buffer[offset]?.getD 0 = 5
      · simp [parsePageHeader, readInt8, getPageHeaderSize, h5, List.getD_eq_getElem?_getD,
          Except.isOk, Except.toBool, Bind.bind, Except.bind]
      · by_cases h10 : buffer[offset]?.getD 0 = 10
        · simp [parsePageHeader, readInt8, getPageHeaderSize, h10, List.getD_eq_getElem?_getD,
            Except.isOk, Except.toBool, Bind.bind, Except.bind]
        · by_cases h13 : buffer[offset]?.getD 0 = 13
          · simp [parsePageHeader, readInt8, getPageHeaderSize, h13, List.getD_eq_getElem?_getD,
              Except.isOk, Except.toBool, Bind.bind, Except.bind]
          · have hne : ¬ (buffer[offset]?.getD 0 = 2 ∨ buffer[offset]?.getD 0 = 5 ∨
                buffer[offset]?.getD 0 = 10 ∨ buffer[offset]?.getD 0 = 13) := by tauto
            simp only [hne, iff_false]
            unfold parsePageHeader readInt8 getPageHeaderSize
            simp only [List.getD_eq_getElem?_getD]
            by_cases hlt : buffer[offset]?.getD 0 < 128
            · have hA : ¬(((buffer[offset]?.getD 0 : Nat) : Int) = 10 ∨
                  ((buffer[offset]?.getD 0 : Nat) : Int) = 13) := by omega
              have hB : ¬(((buffer[offset]?.getD 0 : Nat) : Int) = 2 ∨
                  ((buffer[offset]?.getD 0 : Nat) : Int) = 5) := by omega
              simp [hlt, hA, hB, Except.isOk, Except.toBool, Bind.bind, Except.bind]
            · have hA : ¬(((buffer[offset]?.getD 0 : Nat) : Int) - 256 = 10 ∨
                  ((buffer[offset]?.getD 0 : Nat) : Int) - 256 = 13) := by omega
              have hB : ¬(((buffer[offset]?.getD 0 : Nat) : Int) - 256 = 2 ∨
                  ((buffer[offset]?.getD 0 : Nat) : Int) - 256 = 5) := by omega
              simp [hlt, hA, hB, Except.isOk, Except.toBool, Bind.bind, Except.bind]

/-- C10, witness: a one-byte page 0x0d yields the empty list through
readIndexPage, and parsePageHeader on a page of type 0x0a succeeds. -/
theorem claim_C10_witness :
    readIndexPage [13] 1 JSValue.null (0 + 1) 1 = .ok [] ∧
    ((parsePageHeader [10] 0).isOk = true ↔
      ([10] : List Nat).getD 0 0 = 2 ∨ ([10] : List Nat).getD 0 0 = 5 ∨
      ([10] : List Nat).getD 0 0 = 10 ∨ ([10] : List Nat).getD 0 0 = 13) :=
  ⟨claim_C10.1 [13] 1 1 0 .null (by decide), claim_C10.2 [10] 0 (by decide)⟩

/-- C7, counterexample: on the database whose page 1 is table-interior,
the claim says readDatabaseSchemas enumerates both schema rows by falling
through to the tableScan walker; instead it walks the interior cells with
the leaf layout, decodes garbage and throws InvalidSchemaType, while the
prescribed walk (readDatabaseSchemasSpec) does enumerate both tables. -/
theorem claim_C7_counterexample :
    readDatabaseSchemas (fetchPage c7File 1 256) = .error "Invalid schema type: null" ∧
    readDatabaseSchemasSpec c7File 256 3 =
      .ok ([[("schemaType", .str (strBytes "table")),
             ("schemaName", .str (strBytes "apples")),
             ("name", .str (strBytes "apples")),
             ("rootPage", .num 1),
             ("schemaBody", .str (strBytes "x"))],
            [("schemaType", .str (strBytes "table")),
             ("schemaName", .str (strBytes "oranges")),
             ("name", .str (strBytes "oranges")),
             ("rootPage", .num 1),
             ("schemaBody", .str (strBytes "x"))]], []) ∧
    readDatabaseSchemas (fetchPage c7File 1 256) ≠ readDatabaseSchemasSpec c7File 256 3 :=
  ⟨by decide, by decide, by decide⟩

theorem schemasLoop_eq_specLeaf (buffer : List Nat) :
    ∀ n cursor tables indexes,
      readDatabaseSchemasLoop buffer 13 n cursor tables indexes
        = specSchemaWalkLeaf buffer n cursor (tables, indexes) := by
  intro n
  induction n with
  | zero => intro cursor ts is; rfl
  | succ n ih =>
    intro cursor ts is
    unfold readDatabaseSchemasLoop specSchemaWalkLeaf
    cases hrow : parseRow (readCellPayload 13 buffer (readUInt16BE buffer cursor)).payload
        SCHEMA_COLUMNS with
    | error e => simp [hrow, Bind.bind, Except.bind]
    | ok row =>
      simp only [hrow, Bind.bind, Except.bind]
      split_ifs <;> simp [ih]

/-- C7 (amended): readDatabaseSchemas walks page 1 with the table-leaf
cell layout regardless of the page type; only when page 1 is a table-leaf
page (type 0x0d) does it enumerate the schema rows, where it agrees with
the walk the spec prescribes. An interior page 1 is misparsed (the child
pointers are decoded as leaf cells), not walked through tableScan. -/
theorem claim_C7 (file : List Nat) (pageSize fuel : Nat)
    (h : (fetchPage file 1 pageSize).getD 100 0 = 13) :
    readDatabaseSchemas (fetchPage file 1 pageSize)
      = readDatabaseSchemasSpec file pageSize (fuel + 1) := by
  simp only [List.getD_eq_getElem?_getD] at h
  unfold readDatabaseSchemas readDatabaseSchemasSpec specSchemaWalk
  have hph : parsePageHeader (fetchPage file 1 pageSize) 100 =
      .ok ⟨13, readUInt16BE (fetchPage file 1 pageSize) 101,
        readUInt16BE (fetchPage file 1 pageSize) 103,
        readUInt16BE (fetchPage file 1 pageSize) 105, none, 8⟩ := by
    simp [parsePageHeader, readInt8, getPageHeaderSize, List.getD_eq_getElem?_getD, h,
      Bind.bind, Except.bind]
  simp only [hph, Bind.bind, Except.bind]
  norm_num
  exact schemasLoop_eq_specLeaf (fetchPage file 1 pageSize) _ _ [] []

/-- C7, witness: the amended claim at the concrete one-leaf database. -/
theorem claim_C7_witness :
    readDatabaseSchemas (fetchPage c7LeafFile 1 256)
      = readDatabaseSchemasSpec c7LeafFile 256 (0 + 1) :=
  claim_C7 c7LeafFile 256 0 (by decide)

theorem parseTableLeafPage_none (idc : Option String) (cells : List TableCell) :
    parseTableLeafPage idc none cells = cells.map (applyIdentity idc) := by
  unfold parseTableLeafPage applyIdentity
  induction cells with
  | nil => rfl
  | cons c rest ih =>
    simp only [List.flatMap_cons, List.map_cons, ih]
    cases idc <;> simp

theorem parseTableLeafPage_some (idc : Option String) (R : List Row) (cells : List TableCell) :
    parseTableLeafPage idc (some R) cells
      = (cells.filter (fun c => rowIdMatch R c.rowId)).map (applyIdentity idc) := by
  unfold parseTableLeafPage applyIdentity rowIdMatch
  induction cells with
  | nil => rfl
  | cons c rest ih =>
    simp only [List.flatMap_cons, List.filter_cons, ih]
    by_cases h : (R.find? (fun e => strictEqOpt (rowGet e "rowId") (.num c.rowId))).isSome
    · simp only [h, if_pos, List.map_cons]
      cases idc <;> simp
    · simp only [Bool.not_eq_true] at h
      simp only [h, Bool.false_eq_true, if_neg, not_false_iff]
      cases idc <;> simp

theorem cellsOfChildren_eq (l : List (TableTree × Nat)) :
    cellsOfChildren l = l.flatMap (fun c => cellsOf c.1) := by
  induction l with
  | nil => rfl
  | cons c rest ih => simp [cellsOfChildren, ih]

theorem tableScanChildren_eq (idc : Option String) (l : List (TableTree × Nat)) :
    tableScanChildren idc l = l.flatMap (fun c => tableScan idc c.1) := by
  induction l with
  | nil => rfl
  | cons c rest ih => simp [tableScanChildren, ih]

/-- tableScan emits exactly the in-order cells, decoded. -/
theorem tableScan_eq_cells (idc : Option String) :
    ∀ t, tableScan idc t = (cellsOf t).map (applyIdentity idc) := by
  apply TableTree.myInduction
  · intro cells
    simp [tableScan, cellsOf, parseTableLeafPage_none]
  · intro children rm ihc ihrm
    simp only [tableScan, cellsOf, tableScanChildren_eq, cellsOfChildren_eq, List.map_append,
      ihrm, List.map_flatMap]
    congr 1
    exact List.flatMap_congr (fun c hc => ihc c hc)

/-! Validity extraction -/

theorem cellsLe_mem {k : Nat} {t : TableTree} (h : cellsLe k t = true)
    {c : TableCell} (hc : c ∈ cellsOf t) : c.rowId ≤ k := by
  unfold cellsLe at h
  rw [List.all_eq_true] at h
  simpa using h c hc

theorem cellsGt_mem {k : Nat} {t : TableTree} (h : cellsGt k t = true)
    {c : TableCell} (hc : c ∈ cellsOf t) : k < c.rowId := by
  unfold cellsGt at h
  rw [List.all_eq_true] at h
  simpa using h c hc

theorem cellsGt_mono {k p : Nat} {t : TableTree} (h : cellsGt k t = true) (hp : p ≤ k) :
    cellsGt p t = true := by
  unfold cellsGt at h ⊢
  rw [List.all_eq_true] at h ⊢
  intro c hc
  have := h c hc
  simp at this ⊢
  omega

theorem childrenValid_cons_none {c : TableTree × Nat} {rest : List (TableTree × Nat)} :
    childrenValid none (c :: rest) = true ↔
      cellsLe c.2 c.1 = true ∧ tableValid c.1 = true ∧ childrenValid (some c.2) rest = true := by
  simp only [childrenValid, Bool.and_eq_true]
  tauto

theorem childrenValid_cons_some {p : Nat} {c : TableTree × Nat} {rest : List (TableTree × Nat)} :
    childrenValid (some p) (c :: rest) = true ↔
      p < c.2 ∧ cellsLe c.2 c.1 = true ∧ cellsGt p c.1 = true ∧ tableValid c.1 = true ∧
        childrenValid (some c.2) rest = true := by
  simp only [childrenValid, Bool.and_eq_true, decide_eq_true_eq]
  tauto

/-- Along a valid child list, every child after a bound p has all its cells
above p and its key above p. -/
theorem childrenValid_prevGt {p : Nat} :
    ∀ {l : List (TableTree × Nat)}, childrenValid (some p) l = true →
      ∀ c ∈ l, p < c.2 ∧ cellsGt p c.1 = true := by
  intro l
  induction l generalizing p with
  | nil => intro _ c hc; cases hc
  | cons c rest ih =>
    intro h x hx
    rw [childrenValid_cons_some] at h
    rcases List.mem_cons.mp hx with rfl | hx
    · exact ⟨h.1, h.2.2.1⟩
    · have := ih h.2.2.2.2 x hx
      exact ⟨by omega, cellsGt_mono this.2 (by omega)⟩

theorem childrenValid_all {prev : Option Nat} :
    ∀ {l : List (TableTree × Nat)}, childrenValid prev l = true →
      ∀ c ∈ l, tableValid c.1 = true ∧ cellsLe c.2 c.1 = true := by
  intro l
  induction l generalizing prev with
  | nil => intro _ c hc; cases hc
  | cons c rest ih =>
    intro h x hx
    rcases List.mem_cons.mp hx with rfl | hx
    · cases prev with
      | none => rw [childrenValid_cons_none] at h; exact ⟨h.2.1, h.1⟩
      | some p => rw [childrenValid_cons_some] at h; exact ⟨h.2.2.2.1, h.2.1⟩
    · cases prev with
      | none => rw [childrenValid_cons_none] at h; exact ih h.2.2 x hx
      | some p => rw [childrenValid_cons_some] at h; exact ih h.2.2.2.2 x hx

/-- The window property of a valid child list: the cells under child i lie
strictly above every earlier cell key and at most at the child key. -/
theorem childrenValid_window {prev : Option Nat} :
    ∀ {l : List (TableTree × Nat)}, childrenValid prev l = true →
      ∀ i (hi : i < l.length),
        (∀ x ∈ l.take i, ∀ cell ∈ cellsOf l[i].1, x.2 < cell.rowId) ∧
        (∀ cell ∈ cellsOf l[i].1, cell.rowId ≤ l[i].2) := by
  intro l
  induction l generalizing prev with
  | nil => intro _ i hi; simp at hi
  | cons c rest ih =>
    intro h i hi
    have hhead : cellsLe c.2 c.1 = true ∧ childrenValid (some c.2) rest = true := by
      cases prev with
      | none => rw [childrenValid_cons_none] at h; exact ⟨h.1, h.2.2⟩
      | some p => rw [childrenValid_cons_some] at h; exact ⟨h.2.1, h.2.2.2.2⟩
    cases i with
    | zero =>
      refine ⟨by simp, ?_⟩
      intro cell hcell
      simpa using cellsLe_mem hhead.1 hcell
    | succ j =>
      have hj : j < rest.length := by simpa using hi
      have hrest := ih hhead.2 j hj
      constructor
      · intro x hx cell hcell
        simp only [List.take_succ_cons] at hx
        rcases List.mem_cons.mp hx with rfl | hx
        · have hmem : rest[j] ∈ rest := List.getElem_mem hj
          have := (childrenValid_prevGt hhead.2 rest[j] hmem).2
          have h2 := cellsGt_mem this (by simpa using hcell)
          simpa using h2
        · have := hrest.1 x hx cell (by simpa using hcell)
          simpa using this
      · intro cell hcell
        have := hrest.2 cell (by simpa using hcell)
        simpa using this

theorem tableValid_interior {children : List (TableTree × Nat)} {rm : TableTree} :
    tableValid (.interior children rm) = true ↔
      childrenValid none children = true ∧ (∀ c ∈ children, cellsGt c.2 rm = true) ∧
        tableValid rm = true := by
  show (childrenValid none children && children.all (fun c => cellsGt c.2 rm) && tableValid rm)
      = true ↔ _
  simp [Bool.and_eq_true, List.all_eq_true]
  tauto

/-! findFromTo and filterChildPointers -/

theorem findFromTo_snd_eq (r : Option JSValue) :
    ∀ (l : List (TableTree × Nat)) (i : Nat) (acc : Option Nat),
      (findFromTo r i acc l).2 = l.findIdx? (fun c => jsLeOpt r (.num c.2)) i := by
  intro l
  induction l with
  | nil => intro i acc; simp [findFromTo, List.findIdx?]
  | cons c rest ih =>
    intro i acc
    rw [findFromTo, List.findIdx?_cons]
    by_cases h : jsLeOpt r (.num c.2)
    · simp [h]
    · simp only [Bool.not_eq_true] at h
      simp [h, ih]

theorem findIdx?_lt_length {α : Type} (p : α → Bool) :
    ∀ (l : List α) (i j : Nat), l.findIdx? p i = some j → i ≤ j ∧ j - i < l.length := by
  intro l
  induction l with
  | nil => intro i j h; simp [List.findIdx?] at h
  | cons c rest ih =>
    intro i j h
    rw [List.findIdx?_cons] at h
    by_cases hc : p c
    · rw [if_pos hc] at h
      have : i = j := by injection h
      simp only [List.length_cons]
      omega
    · rw [if_neg (by simp [hc])] at h
      have := ih (i + 1) j h
      simp only [List.length_cons]
      omega

theorem findIdx?_append_cons {α : Type} (p : α → Bool) (pre : List α) (ci : α) (post : List α)
    (hpre : ∀ x ∈ pre, p x = false) (hci : p ci = true) :
    ∀ i, (pre ++ ci :: post).findIdx? p i = some (i + pre.length) := by
  induction pre with
  | nil => intro i; simp [List.findIdx?_cons, hci]
  | cons x rest ih =>
    intro i
    rw [List.cons_append, List.findIdx?_cons, hpre x (by simp)]
    simp only [Bool.false_eq_true, if_neg, not_false_iff]
    rw [ih (fun y hy => hpre y (by simp [hy])) (i + 1)]
    congr 1
    simp
    omega

theorem findFromTo_fst_bound (r : Option JSValue) :
    ∀ (l : List (TableTree × Nat)) (i : Nat) (acc : Option Nat),
      (findFromTo r i acc l).1 = acc ∨
        ∃ j, j < l.length ∧ (findFromTo r i acc l).1 = some (i + j) := by
  intro l
  induction l with
  | nil => intro i acc; left; rfl
  | cons c rest ih =>
    intro i acc
    rw [findFromTo]
    by_cases hge : jsGeOpt r (.num c.2)
    · by_cases hle : jsLeOpt r (.num c.2)
      · right
        exact ⟨0, by simp, by simp [hge, hle]⟩
      · simp only [Bool.not_eq_true] at hle
        simp only [hge, hle, if_pos, Bool.false_eq_true, if_neg, not_false_iff]
        rcases ih (i + 1) (some i) with h | ⟨j, hj, h⟩
        · right; exact ⟨0, by simp, by simpa using h⟩
        · right; exact ⟨j + 1, by simpa using hj, by rw [h]; congr 1; omega⟩
    · simp only [Bool.not_eq_true] at hge
      by_cases hle : jsLeOpt r (.num c.2)
      · left
        simp [hge, hle]
      · simp only [Bool.not_eq_true] at hle
        simp only [hge, hle, Bool.false_eq_true, if_neg, not_false_iff]
        rcases ih (i + 1) acc with h | ⟨j, hj, h⟩
        · left; exact h
        · right; exact ⟨j + 1, by simpa using hj, by rw [h]; congr 1; omega⟩

theorem insertUniq_mem {l : List Nat} {i j : Nat} :
    j ∈ insertUniq l i ↔ j ∈ l ∨ j = i := by
  unfold insertUniq
  split_ifs with h
  · constructor
    · intro hj; exact Or.inl hj
    · rintro (hj | rfl)
      · exact hj
      · exact h
  · simp

theorem insertUniq_nodup {l : List Nat} {i : Nat} (h : l.Nodup) : (insertUniq l i).Nodup := by
  unfold insertUniq
  split_ifs with hmem
  · exact h
  · simpa [List.nodup_append] using ⟨h, hmem⟩

theorem filterChildPointers_eq_foldl (children : List (TableTree × Nat)) (R : List Row) :
    filterChildPointers children R = R.foldl (fcpStep children) [] := by
  unfold filterChildPointers
  suffices h : ∀ (R : List Row) (acc : List Nat),
      R.foldl (fun acc e =>
        let ft := findFromTo (rowGet e "rowId") 0 none children
        let acc := match ft.1 with | some i => insertUniq acc i | none => acc
        match ft.2 with | some i => insertUniq acc i | none => acc) acc
      = R.foldl (fcpStep children) acc from h R []
  intro R
  induction R with
  | nil => intro acc; rfl
  | cons e rest ih =>
    intro acc
    simp only [List.foldl_cons]
    rw [show (let ft := findFromTo (rowGet e "rowId") 0 none children
        let acc := match ft.1 with | some i => insertUniq acc i | none => acc
        match ft.2 with | some i => insertUniq acc i | none => acc) = fcpStep children acc e from ?_]
    · exact ih _
    · unfold fcpStep
      rcases (findFromTo (rowGet e "rowId") 0 none children) with ⟨f, t⟩
      rcases f with _ | f <;> rcases t with _ | t <;> rfl

theorem fcpStep_mem_mono {children : List (TableTree × Nat)} {acc : List Nat} {e : Row}
    {j : Nat} (h : j ∈ acc) : j ∈ fcpStep children acc e := by
  unfold fcpStep
  rcases (findFromTo (rowGet e "rowId") 0 none children) with ⟨f, t⟩
  rcases f with _ | f <;> rcases t with _ | t <;>
    simp only [] <;>
    first
      | exact h
      | exact insertUniq_mem.mpr (Or.inl h)
      | exact insertUniq_mem.mpr (Or.inl (insertUniq_mem.mpr (Or.inl h)))

theorem foldl_fcp_mem_mono {children : List (TableTree × Nat)} {j : Nat} :
    ∀ {R : List Row} {acc : List Nat}, j ∈ acc → j ∈ R.foldl (fcpStep children) acc := by
  intro R
  induction R with
  | nil => intro acc h; exact h
  | cons e rest ih => intro acc h; exact ih (fcpStep_mem_mono h)

theorem fcpStep_snd_mem {children : List (TableTree × Nat)} {acc : List Nat} {e : Row}
    {j : Nat} (h : (findFromTo (rowGet e "rowId") 0 none children).2 = some j) :
    j ∈ fcpStep children acc e := by
  unfold fcpStep
  rw [h]
  rcases hf : (findFromTo (rowGet e "rowId") 0 none children).1 with _ | f <;>
    simp only [] <;> exact insertUniq_mem.mpr (Or.inr rfl)

/-- Completeness of the child selection: if the to-pointer search for some
entry lands on position j, then j is selected. -/
theorem filterChildPointers_complete {children : List (TableTree × Nat)} {e : Row} {j : Nat}
    (h : (findFromTo (rowGet e "rowId") 0 none children).2 = some j) :
    ∀ {R : List Row}, e ∈ R → j ∈ filterChildPointers children R := by
  have main : ∀ (R : List Row) (acc : List Nat), e ∈ R → j ∈ R.foldl (fcpStep children) acc := by
    intro R
    induction R with
    | nil => intro acc he; cases he
    | cons x rest ih =>
      intro acc he
      rw [List.foldl_cons]
      rcases List.mem_cons.mp he with rfl | he2
      · exact foldl_fcp_mem_mono (fcpStep_snd_mem h)
      · exact ih _ he2
  intro R he
  rw [filterChildPointers_eq_foldl]
  exact main R [] he

theorem insertUniq_sub {l : List Nat} {i : Nat} {n : Nat}
    (hl : ∀ x ∈ l, x < n) (hi : i < n) : ∀ x ∈ insertUniq l i, x < n := by
  intro x hx
  rcases insertUniq_mem.mp hx with h | rfl
  · exact hl x h
  · exact hi

/-- Every selected position is a real child position. -/
theorem filterChildPointers_bound {children : List (TableTree × Nat)} {R : List Row} :
    ∀ j ∈ filterChildPointers children R, j < children.length := by
  rw [filterChildPointers_eq_foldl]
  have step : ∀ (acc : List Nat) (e : Row), (∀ x ∈ acc, x < children.length) →
      ∀ x ∈ fcpStep children acc e, x < children.length := by
    intro acc e hacc
    unfold fcpStep
    have hfst := findFromTo_fst_bound (rowGet e "rowId") children 0 none
    have hsnd := findFromTo_snd_eq (rowGet e "rowId") children 0 none
    rcases hf : (findFromTo (rowGet e "rowId") 0 none children).1 with _ | f <;>
      rcases ht : (findFromTo (rowGet e "rowId") 0 none children).2 with _ | t
    · exact hacc
    · have ht2 : t < children.length := by
        rw [hsnd] at ht
        have := findIdx?_lt_length _ children 0 t ht
        omega
      exact insertUniq_sub hacc ht2
    · have hf2 : f < children.length := by
        rcases hfst with h | ⟨j2, hj2, h⟩
        · rw [hf] at h; cases h
        · rw [hf] at h
          have : f = 0 + j2 := by injection h
          omega
      exact insertUniq_sub hacc hf2
    · have hf2 : f < children.length := by
        rcases hfst with h | ⟨j2, hj2, h⟩
        · rw [hf] at h; cases h
        · rw [hf] at h
          have : f = 0 + j2 := by injection h
          omega
      have ht2 : t < children.length := by
        rw [hsnd] at ht
        have := findIdx?_lt_length _ children 0 t ht
        omega
      exact insertUniq_sub (insertUniq_sub hacc hf2) ht2
  have main : ∀ (R : List Row) (acc : List Nat), (∀ x ∈ acc, x < children.length) →
      ∀ x ∈ R.foldl (fcpStep children) acc, x < children.length := by
    intro R
    induction R with
    | nil => intro acc hacc; exact hacc
    | cons e rest ih =>
      intro acc hacc
      rw [List.foldl_cons]
      exact ih _ (step acc e hacc)
  exact main R [] (by intro x hx; cases hx)

/-- The selected positions are distinct (Set semantics). -/
theorem filterChildPointers_nodup {children : List (TableTree × Nat)} {R : List Row} :
    (filterChildPointers children R).Nodup := by
  rw [filterChildPointers_eq_foldl]
  have step : ∀ (acc : List Nat) (e : Row), acc.Nodup → (fcpStep children acc e).Nodup := by
    intro acc e hacc
    unfold fcpStep
    rcases (findFromTo (rowGet e "rowId") 0 none children) with ⟨f, t⟩
    rcases f with _ | f <;> rcases t with _ | t <;>
      simp only [] <;>
      first
        | exact hacc
        | exact insertUniq_nodup hacc
        | exact insertUniq_nodup (insertUniq_nodup hacc)
  have main : ∀ (R : List Row) (acc : List Nat), acc.Nodup →
      (R.foldl (fcpStep children) acc).Nodup := by
    intro R
    induction R with
    | nil => intro acc hacc; exact hacc
    | cons e rest ih =>
      intro acc hacc
      rw [List.foldl_cons]
      exact ih _ (step acc e hacc)
  exact main R [] List.nodup_nil

theorem indexScanChildren_length (idc : Option String) (R : List Row)
    (l : List (TableTree × Nat)) : (indexScanChildren idc R l).length = l.length := by
  induction l with
  | nil => rfl
  | cons c rest ih => simp [indexScanChildren, ih]

theorem indexScanChildren_getD (idc : Option String) (R : List Row) :
    ∀ (l : List (TableTree × Nat)) (i : Nat) (hi : i < l.length),
      (indexScanChildren idc R l).getD i [] = indexScan idc R l[i].1 := by
  intro l
  induction l with
  | nil => intro i hi; simp at hi
  | cons c rest ih =>
    intro i hi
    cases i with
    | zero => rfl
    | succ j =>
      have hj : j < rest.length := by simpa using hi
      simpa [indexScanChildren] using ih j hj

theorem indexScanChildren_getD_oob (idc : Option String) (R : List Row)
    (l : List (TableTree × Nat)) (i : Nat) (hi : l.length ≤ i) :
    (indexScanChildren idc R l).getD i [] = [] := by
  apply List.getD_eq_default
  rw [indexScanChildren_length]
  omega

theorem strictEq_num_right {v : JSValue} {r : Int} (h : strictEq v (.num r) = true) :
    v = .num r := by
  cases v <;> simp [strictEq] at h <;> simp [h]

theorem strictEqOpt_num_iff {o : Option JSValue} {r : Int} :
    strictEqOpt o (.num r) = true ↔ o = some (.num r) := by
  constructor
  · intro h
    cases o with
    | none => simp [strictEqOpt] at h
    | some v =>
      have := strictEq_num_right (v := v) (r := r) (by simpa [strictEqOpt] using h)
      rw [this]
  · rintro rfl
    simp [strictEqOpt, strictEq]

theorem rowIdMatch_iff {R : List Row} {rid : Nat} :
    rowIdMatch R rid = true ↔ ∃ e ∈ R, rowGet e "rowId" = some (.num rid) := by
  unfold rowIdMatch
  rw [List.find?_isSome]
  constructor
  · rintro ⟨e, he, hp⟩
    exact ⟨e, he, strictEqOpt_num_iff.mp hp⟩
  · rintro ⟨e, he, hp⟩
    exact ⟨e, he, strictEqOpt_num_iff.mpr hp⟩

/-! Multiset infrastructure -/

theorem ofList_flatMap {α : Type} (l : List α) (f : α → List Row) :
    (↑(l.flatMap f) : Multiset Row) = (l.map (fun a => (↑(f a) : Multiset Row))).sum := by
  induction l with
  | nil => rfl
  | cons a rest ih =>
    simp only [List.flatMap_cons, List.map_cons, List.sum_cons, ← ih]
    rw [← Multiset.coe_add]

theorem sum_over_selected (f : Nat → Multiset Row) (sel : List Nat) (n : Nat)
    (hnodup : sel.Nodup) (hsub : ∀ i ∈ sel, i < n)
    (hzero : ∀ i, i < n → i ∉ sel → f i = 0) :
    (sel.map f).sum = ((List.range n).map f).sum := by
  rw [← List.sum_toFinset f hnodup, ← List.sum_toFinset f (List.nodup_range n)]
  apply Finset.sum_subset
  · intro i hi
    simp only [List.mem_toFinset] at hi ⊢
    simpa using hsub i hi
  · intro i hi hni
    simp only [List.mem_toFinset, List.mem_range] at hi hni
    exact hzero i hi hni

theorem map_eq_range_map {α β : Type} (l : List α) (f : α → β) (dflt : β) :
    l.map f = (List.range l.length).map
      (fun i => match l[i]? with | some a => f a | none => dflt) := by
  induction l with
  | nil => rfl
  | cons c rest ih =>
    simp only [List.map_cons, List.length_cons, List.range_succ_eq_map, List.map_map]
    congr 1
    · simp
    · rw [ih]
      apply List.map_congr_left
      intro i _
      simp

/-- The heart of claims C1 and C5: on a valid table B-tree, indexScan
returns, as a multiset, exactly the in-order cells whose row id matches
some index entry, decoded. -/
theorem indexScan_multiset (idc : Option String) (R : List Row) :
    ∀ t, tableValid t = true →
      (↑(indexScan idc R t) : Multiset Row)
        = ↑(((cellsOf t).filter (fun c => rowIdMatch R c.rowId)).map (applyIdentity idc)) := by
  apply TableTree.myInduction
  · intro cells _
    rw [show indexScan idc R (.leaf cells) = parseTableLeafPage idc (some R) cells from rfl,
      parseTableLeafPage_some]
    rfl
  · intro children rm ihc ihrm hvalid
    rw [tableValid_interior] at hvalid
    obtain ⟨hcv, hrmgt, hrmv⟩ := hvalid
    have hn : (indexScanChildren idc R children).length = children.length :=
      indexScanChildren_length idc R children
    rw [show indexScan idc R (.interior children rm)
        = (filterChildPointers children R).flatMap
            (fun i => (indexScanChildren idc R children).getD i [])
          ++ indexScan idc R rm from rfl,
      show cellsOf (.interior children rm) = cellsOfChildren children ++ cellsOf rm from rfl]
    rw [List.filter_append, List.map_append]
    rw [← Multiset.coe_add, ← Multiset.coe_add]
    rw [ihrm hrmv]
    congr 1
    set F : Nat → Multiset Row := fun i =>
      ↑((match children[i]? with
          | some c => (cellsOf c.1).filter (fun (cell : TableCell) => rowIdMatch R cell.rowId)
          | none => ([] : List TableCell)).map (applyIdentity idc)) with hF
    rw [ofList_flatMap]
    have hstep1 : (filterChildPointers children R).map
        (fun i => (↑((indexScanChildren idc R children).getD i []) : Multiset Row))
        = (filterChildPointers children R).map F := by
      apply List.map_congr_left
      intro i hi
      have hib : i < children.length := filterChildPointers_bound i hi
      rw [indexScanChildren_getD idc R children i hib]
      have hvc : tableValid children[i].1 = true :=
        (childrenValid_all hcv children[i] (List.getElem_mem hib)).1
      rw [ihc children[i] (List.getElem_mem hib) hvc, hF]
      simp [List.getElem?_eq_getElem hib]
    rw [hstep1]
    have hstep2 : ((filterChildPointers children R).map F).sum
        = ((List.range children.length).map F).sum := by
      apply sum_over_selected F _ _ filterChildPointers_nodup
        (fun i hi => filterChildPointers_bound i hi)
      intro i hilt hnotin
      rw [hF]
      simp only [List.getElem?_eq_getElem hilt]
      suffices hfil : (cellsOf children[i].1).filter (fun cell => rowIdMatch R cell.rowId)
          = [] by
        simp [hfil]
      rw [List.filter_eq_nil_iff]
      intro cell hcell
      by_contra hmatch
      rw [rowIdMatch_iff] at hmatch
      obtain ⟨e, he, hrowid⟩ := hmatch
      apply hnotin
      apply filterChildPointers_complete (e := e) _ he
      rw [findFromTo_snd_eq]
      have hsplit : children = children.take i ++ children[i] :: children.drop (i + 1) := by
        rw [← List.drop_eq_getElem_cons hilt, List.take_append_drop]
      have hwin := childrenValid_window hcv i hilt
      rw [hsplit, findIdx?_append_cons]
      · congr 1
        simp
        omega
      · intro x hx
        have hlt := hwin.1 x hx cell hcell
        simp [jsLeOpt, jsGe, hrowid]
        omega
      · have hle := hwin.2 cell hcell
        simp [jsLeOpt, jsGe, hrowid]
        omega
    rw [hstep2]
    rw [cellsOfChildren_eq, List.filter_flatMap, List.map_flatMap, ofList_flatMap]
    congr 1
    rw [map_eq_range_map children
      (fun a => (↑(((cellsOf a.1).filter (fun cell => rowIdMatch R cell.rowId)).map
        (applyIdentity idc)) : Multiset Row)) 0]
    apply List.map_congr_left
    intro i hi
    rw [hF]
    rcases h : children[i]? with _ | c <;> simp [h]

theorem filter_map_comm {α β : Type} (l : List α) (f : α → β) (p : β → Bool) :
    (l.map f).filter p = (l.filter (fun x => p (f x))).map f := by
  induction l with
  | nil => rfl
  | cons a rest ih =>
    simp only [List.map_cons, List.filter_cons]
    by_cases h : p (f a)
    · simp [h, ih]
    · simp only [Bool.not_eq_true] at h
      simp [h, ih]

theorem lexLt_irrefl : ∀ (a : List Nat), lexLt a a = false := by
  intro a
  induction a with
  | nil => rfl
  | cons x rest ih => simp [lexLt, ih]

/-- On a sorted index leaf with text keys, the early-break scan collects
exactly the entries whose key strictly equals the probe. -/
theorem indexLeafScan_filter (V : List Nat) :
    ∀ (entries : List Row),
      (∀ e ∈ entries, ∃ s, rowGet e "key" = some (.str s)) →
      keysNondecreasing entries →
      indexLeafScan (.str V) entries
        = entries.filter (fun e => strictEqOpt (rowGet e "key") (.str V)) := by
  intro entries
  induction entries with
  | nil => intro _ _; rfl
  | cons e rest ih =>
    intro hkeys hsorted
    obtain ⟨s, hs⟩ := hkeys e (by simp)
    rw [keysNondecreasing, List.pairwise_cons] at hsorted
    rw [indexLeafScan]
    by_cases hgt : jsGtOpt (rowGet e "key") (.str V)
    · rw [if_pos hgt]
      have hVs : lexLt V s = true := by
        rw [hs] at hgt
        simpa [jsGtOpt, jsGt] using hgt
      have he : strictEqOpt (rowGet e "key") (.str V) = false := by
        rw [hs]
        simp only [strictEqOpt, strictEq]
        by_contra hb
        simp only [Bool.not_eq_false, beq_iff_eq] at hb
        rw [hb] at hVs
        rw [lexLt_irrefl] at hVs
        cases hVs
      rw [List.filter_cons, he]
      simp only [Bool.false_eq_true, if_neg, not_false_iff]
      symm
      rw [List.filter_eq_nil_iff]
      intro x hx
      obtain ⟨sx, hsx⟩ := hkeys x (by simp [hx])
      have hxe0 := hsorted.1 x hx
      rw [keyLeB, hs, hsx] at hxe0
      have hxe : lexLt sx s = false := by simpa using hxe0
      rw [hsx]
      simp only [strictEqOpt, strictEq, Bool.not_eq_true, beq_eq_false_iff_ne, ne_eq]
      intro hxV
      rw [hxV] at hxe
      rw [hxe] at hVs
      cases hVs
    · rw [if_neg (by simpa using hgt)]
      have htail := ih (fun x hx => hkeys x (by simp [hx])) hsorted.2
      by_cases heq : strictEqOpt (rowGet e "key") (.str V)
      · rw [if_pos heq, List.filter_cons, heq]
        simp only [if_pos]
        rw [htail]
      · rw [if_neg (by simpa using heq), List.filter_cons]
        simp only [Bool.not_eq_true] at heq
        rw [heq]
        simp only [Bool.false_eq_true, if_neg, not_false_iff]
        rw [htail]

theorem isText_exists {o : Option JSValue} (h : isText o = true) :
    ∃ s, o = some (.str s) := by
  cases o with
  | none => cases h
  | some v => cases v <;> simp [isText] at h ⊢

/-- C1 (amended): over a valid table B-tree and a single-leaf index whose
entries carry text keys, are sorted by key, and list exactly the rows of
the table (every cell has an entry with its row id, and any entry with
that row id carries the value the row shows in the predicate column), the
index-driven path readIndexData followed by indexScan produces the same
multiset of rows as the full tableScan filtered in memory. -/
theorem claim_C1 (idc : Option String) (t : TableTree) (entries : List Row)
    (filterColumn : String) (V : List Nat)
    (hvalid : tableValid t = true)
    (hkeys : ∀ e ∈ entries, isText (rowGet e "key") = true)
    (hsorted : keysNondecreasing entries)
    (hcons : ∀ c ∈ cellsOf t,
      (∃ e ∈ entries, rowGet e "rowId" = some (.num c.rowId)) ∧
      (∀ e ∈ entries, rowGet e "rowId" = some (.num c.rowId) →
        rowGet e "key" = rowGet (applyIdentity idc c) filterColumn)) :
    (↑(indexScan idc (readIndexData (.str V) (.leaf entries)) t) : Multiset Row)
      = ↑(filterRows (tableScan idc t) [(filterColumn, .str V)]) := by
  have hleaf : readIndexData (.str V) (.leaf entries)
      = entries.filter (fun e => strictEqOpt (rowGet e "key") (.str V)) := by
    rw [show readIndexData (.str V) (.leaf entries) = indexLeafScan (.str V) entries from rfl]
    exact indexLeafScan_filter V entries (fun e he => isText_exists (hkeys e he)) hsorted
  rw [hleaf]
  rw [indexScan_multiset idc _ t hvalid]
  rw [show filterRows (tableScan idc t) [(filterColumn, .str V)]
      = (tableScan idc t).filter
          (fun row => strictEqOpt (rowGet row filterColumn) (.str V)) from rfl]
  rw [tableScan_eq_cells, filter_map_comm]
  have hfil : (cellsOf t).filter
      (fun c => rowIdMatch
        (entries.filter (fun e => strictEqOpt (rowGet e "key") (.str V))) c.rowId)
      = (cellsOf t).filter
        (fun c => strictEqOpt (rowGet (applyIdentity idc c) filterColumn) (.str V)) := by
    apply List.filter_congr
    intro c hc
    obtain ⟨⟨e0, he0, hre0⟩, huniq⟩ := hcons c hc
    by_cases hmatch : rowIdMatch
        (entries.filter (fun e => strictEqOpt (rowGet e "key") (.str V))) c.rowId
    · rw [hmatch]
      symm
      rw [rowIdMatch_iff] at hmatch
      obtain ⟨e, heR, hre⟩ := hmatch
      rw [List.mem_filter] at heR
      have hkey := huniq e heR.1 hre
      rw [← hkey]
      exact heR.2
    · rw [Bool.not_eq_true] at hmatch
      rw [hmatch]
      symm
      rw [Bool.eq_false_iff]
      intro hpred
      have he0R : e0 ∈ entries.filter (fun e => strictEqOpt (rowGet e "key") (.str V)) := by
        rw [List.mem_filter]
        refine ⟨he0, ?_⟩
        rw [huniq e0 he0 hre0]
        exact hpred
      have hcontra : rowIdMatch
          (entries.filter (fun e => strictEqOpt (rowGet e "key") (.str V))) c.rowId = true := by
        rw [rowIdMatch_iff]
        exact ⟨e0, he0R, hre0⟩
      rw [hmatch] at hcontra
      cases hcontra
  rw [hfil]

theorem claim_C1_witness :
    (↑(indexScan (some "id") (readIndexData (.str [65]) (.leaf c1wEntries)) c1wTable)
        : Multiset Row)
      = ↑(filterRows (tableScan (some "id") c1wTable) [("a", .str [65])]) :=
  claim_C1 (some "id") c1wTable c1wEntries "a" [65]
    (by decide) (by decide) (by decide) (by decide)

/-- C1 counterexample: on a well-formed two-level index (text keys in
nondecreasing order, entries listing exactly the table rows) over a valid
table, probing the key stored in the interior cell returns nothing on the
index path — the left child probe is empty, the early break discards the
matching interior entry — while the full scan with the same predicate
returns the matching row. -/
theorem claim_C1_counterexample :
    tableValid c1xTable = true ∧
    (∀ e ∈ inOrderEntries c1xIndex, isText (rowGet e "key") = true) ∧
    keysNondecreasing (inOrderEntries c1xIndex) ∧
    (∀ c ∈ cellsOf c1xTable,
      (∃ e ∈ inOrderEntries c1xIndex, rowGet e "rowId" = some (.num c.rowId)) ∧
      (∀ e ∈ inOrderEntries c1xIndex, rowGet e "rowId" = some (.num c.rowId) →
        rowGet e "key" = rowGet (applyIdentity none c) "a")) ∧
    indexScan none (readIndexData (.str [118]) c1xIndex) c1xTable = [] ∧
    filterRows (tableScan none c1xTable) [("a", .str [118])]
      = [[("a", .str [118])]] := by decide

/-- C5 (amended): on a valid table B-tree the multiset of rows indexScan
produces depends on the index data R only through the row ids its entries
mention — any R' with the same entries, in particular any permutation of
R, gives the same multiset; the output LIST is not order-independent and
not always ascending (see the counterexample). -/
theorem claim_C5 (idc : Option String) (R R' : List Row) (t : TableTree)
    (hvalid : tableValid t = true)
    (h1 : ∀ e ∈ R, e ∈ R') (h2 : ∀ e ∈ R', e ∈ R) :
    (↑(indexScan idc R t) : Multiset Row) = ↑(indexScan idc R' t) := by
  rw [indexScan_multiset idc R t hvalid, indexScan_multiset idc R' t hvalid]
  congr 2
  apply List.filter_congr
  intro c _
  by_cases h : rowIdMatch R c.rowId = true
  · rw [h]
    symm
    rw [rowIdMatch_iff] at h ⊢
    obtain ⟨e, he, hp⟩ := h
    exact ⟨e, h1 e he, hp⟩
  · rw [Bool.not_eq_true] at h
    rw [h]
    symm
    rw [Bool.eq_false_iff]
    intro hcontra
    rw [rowIdMatch_iff] at hcontra
    obtain ⟨e, he, hp⟩ := hcontra
    have hR : rowIdMatch R c.rowId = true := rowIdMatch_iff.mpr ⟨e, h2 e he, hp⟩
    rw [h] at hR
    cases hR

/-- C5 counterexample: on a valid interior table page, reversing the two
index entries reverses the output — filterChildPointers collects child
positions in Set insertion order, which follows the order of R — so the
output list is neither ascending by row id nor independent of the order
of R. -/
theorem claim_C5_counterexample :
    tableValid c5Table = true ∧
    indexScan none [c5e1, c5e2] c5Table = [[("v", .num 1)], [("v", .num 2)]] ∧
    indexScan none [c5e2, c5e1] c5Table = [[("v", .num 2)], [("v", .num 1)]] := by
  decide

theorem claim_C5_witness :
    (↑(indexScan none [c5e1, c5e2] c5Table) : Multiset Row)
      = ↑(indexScan none [c5e2, c5e1] c5Table) :=
  claim_C5 none [c5e1, c5e2] [c5e2, c5e1] c5Table (by decide) (by decide) (by decide)
